import Mathlib

/-!
# Verification of the wedge-sweep tool

A shallow embedding, in Lean 4, of the core of the `wedge_tool` repository
(`wedge_submitter.py`, `wedge_config_manager.py`, `view_wedges.py`), together
with theorems settling the stated claims about it.

Modelling conventions:
* Python values are the inductive `PyVal` (None, bool, int, float, str, list,
  dict).  Python floats are idealised as exact rationals, so all float
  arithmetic in the source (`+`, comparisons, `round`, `math.isclose`,
  `%.10g` formatting) is modelled exactly over `Rat`.
* Python dicts are insertion-ordered association lists with unique keys;
  `sorted(d)` over a dict sorts its keys lexicographically by code point,
  which coincides with `String` order in Lean.
* Exceptions are modelled with `Except String`; the message text is kept
  close to the source but is not part of any claim.
-/

/- The Batteries rational-arithmetic primitives are `@[irreducible]`, which
blocks definitional evaluation of the concrete example values below; they
are sound computable definitions, so restore the default reducibility. -/
set_option allowUnsafeReducibility true in
attribute [semireducible] Rat.add Rat.mul Rat.sub Rat.div Rat.inv

/-- A Python value, as used by the wedge tool.  Floats are idealised as
exact rationals. -/
inductive PyVal where
  | none
  | bool (b : Bool)
  | int (n : Int)
  | float (q : Rat)
  | str (s : String)
  | list (xs : List PyVal)
  | dict (kvs : List (String × PyVal))

mutual

/-- Structural equality test on `PyVal`, modelling Python `==` for the value
shapes the wedge tool compares (strings, numbers of the same kind, lists).
Python cross-type numeric equality (`1 == 1.0`) is not identified; the tool
only ever compares parameter-name strings and wedge-kind strings. -/
def PyVal.beq : PyVal → PyVal → Bool
  | .none, .none => true
  | .bool a, .bool b => a == b
  | .int a, .int b => a == b
  | .float a, .float b => a == b
  | .str a, .str b => a == b
  | .list xs, .list ys => PyVal.beqList xs ys
  | .dict xs, .dict ys => PyVal.beqDict xs ys
  | _, _ => false

/-- Elementwise `PyVal.beq` on lists. -/
def PyVal.beqList : List PyVal → List PyVal → Bool
  | [], [] => true
  | x :: xs, y :: ys => PyVal.beq x y && PyVal.beqList xs ys
  | _, _ => false

/-- Elementwise `PyVal.beq` on string-keyed association lists. -/
def PyVal.beqDict : List (String × PyVal) → List (String × PyVal) → Bool
  | [], [] => true
  | (k, v) :: xs, (l, w) :: ys => k == l && PyVal.beq v w && PyVal.beqDict xs ys
  | _, _ => false

end

/-- Python truthiness (`bool(x)`) for `PyVal`. -/
def pyTruthy : PyVal → Bool
  | .none => false
  | .bool b => b
  | .int n => n != 0
  | .float q => q != 0
  | .str s => s != ""
  | .list xs => !xs.isEmpty
  | .dict kvs => !kvs.isEmpty

/-- Python `x == 0` for `PyVal` (used by the step-is-zero check). -/
def isPyZero : PyVal → Bool
  | .int n => n == 0
  | .float q => q == 0
  | .bool b => !b
  | _ => false

/-- Python `float(x)` for the value kinds that can appear as minmax bounds.
Numeric strings (which Python would parse) are not modelled and map to
failure; the wedge configs at issue carry numeric bounds. -/
def pyFloatCoerce : PyVal → Option Rat
  | .int n => some (n : Rat)
  | .float q => some q
  | .bool b => some (if b then 1 else 0)
  | _ => Option.none

/-- First key-value pair in a dict whose key matches, i.e. Python `d[k]` /
`d.get(k)`. -/
def dictGet? {α : Type} (d : List (String × α)) (k : String) : Option α :=
  match d with
  | [] => Option.none
  | (k1, v) :: rest => if k1 = k then some v else dictGet? rest k

/-- The keys of a dict, in insertion order (Python `list(d)`). -/
def dictKeys {α : Type} (d : List (String × α)) : List String :=
  d.map Prod.fst

/-- Python `d[k] = f (d.setdefault(k, dflt))` as one pure operation: update
the value at `k` in place if the key exists, otherwise append the key. -/
def dictUpdate {α : Type} (d : List (String × α)) (k : String) (f : α → α) (dflt : α) :
    List (String × α) :=
  match d with
  | [] => [(k, f dflt)]
  | (k1, v) :: rest => if k1 = k then (k, f v) :: rest else (k1, v) :: dictUpdate rest k f dflt

/-- Python `d.pop(k, None)` restricted to its effect on the dict. -/
def dictRemove {α : Type} (d : List (String × α)) (k : String) : List (String × α) :=
  match d with
  | [] => []
  | (k1, v) :: rest => if k1 = k then rest else (k1, v) :: dictRemove rest k

/-- Python `d.setdefault(k, []).append(x)` as one pure operation. -/
def dictAppendEntry {α : Type} (d : List (String × List α)) (k : String) (x : α) :
    List (String × List α) :=
  dictUpdate d k (fun l => l ++ [x]) []

/-- Lexicographic comparison of character lists by code point, the order
Python uses for `str` comparison. -/
def strLeB : List Char → List Char → Bool
  | [], _ => true
  | _ :: _, [] => false
  | a :: as, b :: bs =>
    if a.toNat < b.toNat then true
    else if b.toNat < a.toNat then false
    else strLeB as bs

/-- Python `a <= b` on strings (lexicographic by code point). -/
def strLe (a b : String) : Bool :=
  strLeB a.data b.data

/-- Insert a string into an already sorted list, keeping it sorted. -/
def insertSorted (s : String) : List String → List String
  | [] => [s]
  | t :: ts => if strLe s t then s :: t :: ts else t :: insertSorted s ts

/-- Python `sorted` on a list of strings (lexicographic by code point). -/
def sortStrings (l : List String) : List String :=
  l.foldr insertSorted []

/-- Round-half-to-even on rationals: the rounding used by both Python
`round` and by correctly rounded float formatting, under the exact-rational
idealisation of floats. -/
def roundHalfEven (x : Rat) : Int :=
  let f := ⌊x⌋
  let frac := x - f
  if frac < 1/2 then f
  else if 1/2 < frac then f + 1
  else if f % 2 = 0 then f else f + 1

/-- Python `round(x, n)`: round to `n` decimal digits, ties to even. -/
def pyRound (x : Rat) (n : Nat) : Rat :=
  (roundHalfEven (x * 10 ^ n) : Rat) / 10 ^ n

/-- Python `math.isclose(a, b)` with its default tolerances
(`rel_tol = 1e-9`, `abs_tol = 0.0`):
`|a - b| <= max(rel_tol * max(|a|, |b|), abs_tol)`. -/
def mathIsClose (a b : Rat) : Bool :=
  |a - b| ≤ max ((1 / 10 ^ 9) * max |a| |b|) 0

/-- The number of decimal digits of a natural number (1 for 0), i.e.
`⌊log10 n⌋ + 1` for positive `n`. -/
def digitLen (n : Nat) : Nat :=
  (Nat.repr n).length

/-- `⌊log10 q⌋` for a nonzero rational, computed exactly from the numerator
and denominator (`0` for `q = 0`; callers treat zero separately). -/
def floorLog10 (q : Rat) : Int :=
  let a := q.num.natAbs
  let b := q.den
  let la := digitLen a - 1
  let lb := digitLen b - 1
  if b * 10 ^ la ≤ a * 10 ^ lb then (la : Int) - lb else (la : Int) - lb - 1

/-- Drop the trailing `'0'` characters of a digit list. -/
def stripTrailingZeros (s : List Char) : List Char :=
  (s.reverse.dropWhile (· = '0')).reverse

/-- A natural number printed with at least two digits (C `%e`-style exponent
fields, as produced by CPython float formatting). -/
def pad2 (n : Nat) : String :=
  if n < 10 then "0" ++ Nat.repr n else Nat.repr n

/-- CPython `f"{x:.10g}"` under the exact-rational idealisation of floats:
10 significant digits, correctly rounded (ties to even), trailing zeros and
a trailing decimal point removed, scientific notation exactly when the
decimal exponent is below `-4` or at least `10`. -/
def formatG10 (q : Rat) : String :=
  if q = 0 then "0"
  else
    let sign := if q < 0 then "-" else ""
    let e0 := floorLog10 |q|
    let x := |q| * (10 : Rat) ^ ((9 : Int) - e0)
    let m0 := roundHalfEven x
    let me : Int × Int := if m0 = 10 ^ 10 then ((10 : Int) ^ 9, e0 + 1) else (m0, e0)
    let m := me.1
    let e := me.2
    let ds := stripTrailingZeros (Nat.repr m.toNat).data
    if -4 ≤ e ∧ e < 10 then
      if 0 ≤ e then
        let ip := e.toNat + 1
        if ds.length ≤ ip then
          sign ++ String.mk ds ++ String.mk (List.replicate (ip - ds.length) '0')
        else
          sign ++ String.mk (ds.take ip) ++ "." ++ String.mk (ds.drop ip)
      else
        sign ++ "0." ++ String.mk (List.replicate ((-e).toNat - 1) '0') ++ String.mk ds
    else
      let mant := match ds with
        | [] => "0"
        | d :: rest => if rest.isEmpty then String.mk [d] else String.mk [d] ++ "." ++ String.mk rest
      let esign := if 0 ≤ e then "+" else "-"
      sign ++ mant ++ "e" ++ esign ++ pad2 e.natAbs

/-- Python `s.rstrip(".")`. -/
def rstripDot (s : String) : String :=
  String.mk ((s.data.reverse.dropWhile (· = '.')).reverse)

/-- Python `str(x)` / `repr(x)` for a float: the shortest-round-trip rule of
CPython is approximated by the 10-significant-digit rendering, with `".0"`
appended for integral values.  Within the wedge tool, `str` is only applied
to a float through a container repr, which no claim evaluates. -/
def pyFloatStr (q : Rat) : String :=
  if q.den = 1 then Int.repr q.num ++ ".0" else formatG10 q

mutual

/-- Python `str(x)` for `PyVal` (a string maps to itself). -/
def pyStrFun : PyVal → String
  | .none => "None"
  | .bool b => if b then "True" else "False"
  | .int n => Int.repr n
  | .float q => pyFloatStr q
  | .str s => s
  | .list xs => "[" ++ String.intercalate ", " (PyVal.reprList xs) ++ "]"
  | .dict kvs => "\x7b" ++ String.intercalate ", " (PyVal.reprDict kvs) ++ "\x7d"

/-- `repr` of each element of a list (`repr` is `str` with strings quoted;
quote-escaping inside strings is not modelled). -/
def PyVal.reprList : List PyVal → List String
  | [] => []
  | .str s :: xs => ("\x27" ++ s ++ "\x27") :: PyVal.reprList xs
  | x :: xs => pyStrFun x :: PyVal.reprList xs

/-- `repr` of each pair of a dict. -/
def PyVal.reprDict : List (String × PyVal) → List String
  | [] => []
  | (k, .str s) :: kvs => ("\x27" ++ k ++ "\x27: \x27" ++ s ++ "\x27") :: PyVal.reprDict kvs
  | (k, v) :: kvs => ("\x27" ++ k ++ "\x27: " ++ pyStrFun v) :: PyVal.reprDict kvs

end

/-- Python `repr(x)` for `PyVal`: as `str`, but strings are quoted. -/
def pyReprFun : PyVal → String
  | .str s => "\x27" ++ s ++ "\x27"
  | v => pyStrFun v

namespace WedgeSubmitter

/-- `wedge_submitter._coerce_numeric`: booleans and integers pass through;
a float is rounded to 10 decimals (`round(value, 10)`), becomes an integer
when `math.isclose(rounded, round(rounded))`, and otherwise stays the
rounded float; every other value passes through. -/
def _coerce_numeric : PyVal → PyVal
  | .bool b => .bool b
  | .int n => .int n
  | .float q =>
    let rounded := pyRound q 10
    if mathIsClose rounded (roundHalfEven rounded : Rat) then .int (roundHalfEven rounded)
    else .float rounded
  | v => v

/-- The `while True` loop of `expand_wedge_values` in the `minmax` branch.
The fuel argument models the `iterations > max_iterations` guard: the
source admits at most 100000 appended values and raises on the iteration
that would append the 100001st, so the loop runs with fuel 100000 and fails
when an append is demanded at fuel 0. -/
def expandLoop (stop_f step_f tolerance : Rat) (direction : Int) :
    Nat → Rat → Except String (List PyVal)
  | fuel, current =>
    if (0 < direction ∧ stop_f + tolerance < current) ∨
       (direction < 0 ∧ current < stop_f - tolerance) then
      .ok []
    else
      match fuel with
      | 0 => .error "Exceeded maximum iterations expanding minmax wedge."
      | fuel1 + 1 =>
        match expandLoop stop_f step_f tolerance direction fuel1 (current + step_f) with
        | .error e => .error e
        | .ok rest => .ok (_coerce_numeric (.float current) :: rest)

/-- `wedge_submitter.expand_wedge_values`: expand a wedge declaration into
an explicit value list.  `explicit` returns the given values (failing on an
empty list); `minmax` takes `[min, max, step]`, rejects a zero step, and
walks from `start` by `step` while within `stop` plus/minus the tolerance
`|step| * 1e-9`, coercing each emitted value with `_coerce_numeric`. -/
def expand_wedge_values (spec : List PyVal) (wedge_type : String) :
    Except String (List PyVal) :=
  if wedge_type = "explicit" then
    if spec.isEmpty then .error "Explicit wedge must contain at least one value."
    else .ok spec
  else if wedge_type = "minmax" then
    match spec with
    | [start, stop, step] =>
      if isPyZero step then .error "Minmax wedge step must be non-zero."
      else
        match pyFloatCoerce start, pyFloatCoerce stop, pyFloatCoerce step with
        | some start_f, some stop_f, some step_f =>
          let direction : Int := if 0 < step_f then 1 else -1
          let tolerance := |step_f| * (1 / 10 ^ 9)
          match expandLoop stop_f step_f tolerance direction 100000 start_f with
          | .error e => .error e
          | .ok result =>
            if result.isEmpty then .error "No values produced when expanding minmax wedge."
            else .ok result
        | _, _, _ => .error "Minmax wedge bounds must be numeric."
    | _ => .error "Minmax wedge expects [min, max, step]."
  else .error ("Unsupported wedge type: " ++ wedge_type)

/-- One sweep axis: `((node, param), values)`. -/
abbrev Axis := (String × String) × List PyVal

/-- One assignment (combination): node → (param → value), a Python dict of
dicts, modelled as an insertion-ordered association list. -/
abbrev Assignment := List (String × List (String × PyVal))

/-- `itertools.product` over the value lists, in its order (the last list
varies fastest). -/
def pyProduct : List (List PyVal) → List (List PyVal)
  | [] => [[]]
  | l :: ls => l.flatMap (fun v => (pyProduct ls).map (fun rest => v :: rest))

/-- `combination.setdefault(node_name, \x7b\x7d)[param] = value`. -/
def assignSet (comb : Assignment) (node param : String) (value : PyVal) : Assignment :=
  dictUpdate comb node (fun params => dictUpdate params param (fun _ => value) PyVal.none) []

/-- Build one combination dict from the axis keys and one tuple of values
(the inner loop body of `iter_combinations`). -/
def combinationOf (keys : List (String × String)) (combo_values : List PyVal) : Assignment :=
  (keys.zip combo_values).foldl (fun comb kv => assignSet comb kv.1.1 kv.1.2 kv.2) []

/-- `wedge_submitter.iter_combinations`: every combination from the axes;
with no axes, exactly one empty assignment; otherwise the cartesian product
of the value lists in `itertools.product` order. -/
def iter_combinations (axes : List Axis) : List Assignment :=
  if axes.isEmpty then [[]]
  else
    (pyProduct (axes.map Prod.snd)).map (combinationOf (axes.map Prod.fst))

/-- `wedge_submitter.stringify_value`: floats are rendered with
`f"\x7bvalue:.10g\x7d".rstrip(".")`; everything else with `str`. -/
def stringify_value (value : PyVal) : String :=
  match value with
  | .float q => rstripDot (formatG10 q)
  | v => pyStrFun v

/-- The characters replaced by `sanitize_value`: space, slash, backslash,
colon, comma, semicolon, double quote (`Char.ofNat 34`) and single quote
(`Char.ofNat 39`). -/
def sanitizeChars : List Char :=
  [' ', '/', '\\', ':', ',', ';', Char.ofNat 34, Char.ofNat 39]

/-- `wedge_submitter.sanitize_value`: `stringify_value`, then each of the
characters in `sanitizeChars` replaced by an underscore.  The source applies
eight successive single-character `str.replace` calls; since each target is
one character, none of the targets is an underscore, and the replacement is
an underscore, that equals one pointwise character map (performed on the
character list of the string). -/
def sanitize_value (value : PyVal) : String :=
  String.mk ((stringify_value value).data.map
    (fun c => if sanitizeChars.contains c then '_' else c))

/-- `wedge_submitter.build_filename`: start from `[prefix]`, then for every
node in sorted key order and every param in sorted key order within the
node, append the token `node ++ "-" ++ param ++ "-" ++ sanitize_value value`,
and join all parts with `"__"`.  (`pfx` stands for the source argument named
after the leading filename token, which is a reserved word in Lean.) -/
def build_filename (pfx : String) (combination : Assignment) : String :=
  let parts :=
    (sortStrings (dictKeys combination)).foldl (fun parts node_name =>
      let params := (dictGet? combination node_name).getD []
      (sortStrings (dictKeys params)).foldl (fun parts param_name =>
        let value := (dictGet? params param_name).getD PyVal.none
        parts ++ [node_name ++ "-" ++ param_name ++ "-" ++ sanitize_value value]) parts)
      [pfx]
  String.intercalate "__" parts

end WedgeSubmitter

namespace ViewWedges

/-- `view_wedges.stringify_value`: floats are formatted with
`f"\x7bvalue:.10g\x7d".rstrip(".")`; everything else with `str`. -/
def stringify_value (value : PyVal) : String :=
  match value with
  | .float q => rstripDot (formatG10 q)
  | v => pyStrFun v

/-- The characters `view_wedges.sanitize_value` replaces (the double quote
appears as `'"'` in this file and as `"\""` in the submitter, the same
character). -/
def sanitizeChars : List Char :=
  [' ', '/', '\\', ':', ',', ';', Char.ofNat 34, Char.ofNat 39]

/-- `view_wedges.sanitize_value`: `stringify_value`, then each character of
`sanitizeChars` replaced by an underscore (successive single-character
replaces, modelled as one pointwise map as in the submitter). -/
def sanitize_value (value : PyVal) : String :=
  String.mk ((stringify_value value).data.map
    (fun c => if sanitizeChars.contains c then '_' else c))

/-- The filename reconstruction of `WedgeViewer.update_image_display`
(the `parts` / `base` block): `[self.filename_prefix]`, then per node in
sorted order and per param in sorted order the token
`node ++ "-" ++ param ++ "-" ++ sanitize_value value`, joined with `"__"`. -/
def reconstructBase (pfx : String) (combo : WedgeSubmitter.Assignment) : String :=
  let parts :=
    (sortStrings (dictKeys combo)).foldl (fun parts node =>
      let params := (dictGet? combo node).getD []
      (sortStrings (dictKeys params)).foldl (fun parts param =>
        let value := (dictGet? params param).getD PyVal.none
        parts ++ [node ++ "-" ++ param ++ "-" ++ sanitize_value value]) parts)
      [pfx]
  String.intercalate "__" parts

end ViewWedges

namespace WedgeSubmitter

/-- `total_runs` as computed in `main`: `1` when there are no axes, else
the product of the axis value-list lengths (`math.prod`). -/
def total_runs (axes : List Axis) : Nat :=
  if axes.isEmpty then 1 else (axes.map (fun a => a.2.length)).prod

/-- `max_runs` as computed in `main`: the total, clamped by `--limit` when
one is supplied (`max_runs = min(max_runs, args.limit)`). -/
def max_runs (axes : List Axis) (limit : Option Nat) : Nat :=
  match limit with
  | Option.none => total_runs axes
  | some l => min (total_runs axes) l

/-- The preview loop of `main` (`--print-combinations` / `--dry-run`):
pairs `(idx, total_runs)` logged as `[idx/total_runs]`, one per listed
combination; the loop enumerates from 1 and stops after `max_runs`
entries. -/
def previewLog (axes : List Axis) (limit : Option Nat) : List (Nat × Nat × Assignment) :=
  (((iter_combinations axes).take (max_runs axes limit)).enum).map
    (fun p => (p.1 + 1, total_runs axes, p.2))

/-- The submission loop of `main`: one entry per submitted combination, as
`(idx, reported_total, combination)` where the log line is
`[idx/max_runs] Submitting …`; the loop enumerates from 1 and breaks once
`idx > max_runs`. -/
def submitLog (axes : List Axis) (limit : Option Nat) : List (Nat × Nat × Assignment) :=
  (((iter_combinations axes).take (max_runs axes limit)).enum).map
    (fun p => (p.1 + 1, max_runs axes limit, p.2))

/-- Modelled from the spec: the external job-template collaborator
(`ComfyWorkflow`, not part of this repository) exposes
`set_param_value(node, param, value)`, which succeeds exactly when the
addressed node/parameter location exists, returning the updated template,
and reports failure otherwise. -/
def Workflow := List (String × List (String × PyVal))

/-- Modelled from the spec: set a value at an addressable node/parameter
location, succeeding exactly when the location exists. -/
def set_param_value (w : Workflow) (node param : String) (value : PyVal) : Option Workflow :=
  match dictGet? w node with
  | Option.none => Option.none
  | some params =>
    match dictGet? params param with
    | Option.none => Option.none
    | some _ => some (dictUpdate w node (fun ps => dictUpdate ps param (fun _ => value) value) [])

end WedgeSubmitter

namespace WedgeConfigManager

/-- `wedge_config_manager.WedgeConfig`: the canonical in-memory sweep
configuration.  Override entries are the `[param, value]` Python lists and
wedge entries the `[param, values_spec, wedge_type]` Python lists, kept as
`List PyVal` exactly as the source stores them. -/
structure WedgeConfig where
  output_folder : String
  filename_prefix : String
  url : String
  param_overrides : List (String × List (List PyVal))
  param_wedges : List (String × List (List PyVal))

/-- The inner entry loop of the dict branch of `_normalize_overrides`:
every entry must be a `[param, value]` list of length 2 and is kept
verbatim. -/
def checkOverrideEntries : List PyVal → Except String (List (List PyVal))
  | [] => .ok []
  | entry :: rest =>
    match entry with
    | .list e =>
      if e.length = 2 then
        match checkOverrideEntries rest with
        | .error err => .error err
        | .ok es => .ok (e :: es)
      else .error "param_overrides entries must be [param, value] lists."
    | _ => .error "param_overrides entries must be [param, value] lists."

/-- The dict branch of `_normalize_overrides`: node-keyed values must each
be a list of `[param, value]` entries. -/
def normOverridesDict : List (String × PyVal) → Except String (List (String × List (List PyVal)))
  | [] => .ok []
  | (node, entries) :: rest =>
    match entries with
    | .list es =>
      match checkOverrideEntries es with
      | .error e => .error e
      | .ok converted =>
        match normOverridesDict rest with
        | .error e => .error e
        | .ok out => .ok ((node, converted) :: out)
    | _ => .error "param_overrides values must be lists."

/-- The legacy list branch of `_normalize_overrides`: each entry is a
`[node, param, value]` triple, re-keyed by node with
`normalized.setdefault(node, []).append([param, value])`. -/
def normOverridesList (entries : List PyVal) (acc : List (String × List (List PyVal))) :
    Except String (List (String × List (List PyVal))) :=
  match entries with
  | [] => .ok acc
  | entry :: rest =>
    match entry with
    | .list [node, param, value] =>
      match node with
      | .str n => normOverridesList rest (dictAppendEntry acc n [param, value])
      | _ => .error "param_overrides node names must be strings."
    | _ => .error "List-form param_overrides entries must be [node, param, value]."

/-- `WedgeConfig._normalize_overrides`: accepts `None`/empty, the dict form,
or the legacy flat-list form, and produces the node-keyed dict form. -/
def WedgeConfig._normalize_overrides (raw : PyVal) : Except String (List (String × List (List PyVal))) :=
  if PyVal.beq raw .none || PyVal.beq raw (.dict []) then .ok []
  else match raw with
    | .dict kvs => normOverridesDict kvs
    | .list entries => normOverridesList entries []
    | _ => .error "param_overrides must be a dict or list."

/-- The modern-format detection of `_normalize_wedges`:
`isinstance(value, list) and value and isinstance(value[0], list)`. -/
def isModernWedgeValue : List PyVal → Bool
  | (.list _) :: _ => true
  | _ => false

/-- The inner entry loop of the modern branch of `_normalize_wedges`:
every entry must be a `[param, values, mode]` list of length 3 and is kept
verbatim. -/
def checkWedgeEntries : List PyVal → Except String (List (List PyVal))
  | [] => .ok []
  | entry :: rest =>
    match entry with
    | .list e =>
      if e.length = 3 then
        match checkWedgeEntries rest with
        | .error err => .error err
        | .ok es => .ok (e :: es)
      else .error "param_wedges entries must be [param, values, mode] lists."
    | _ => .error "param_wedges entries must be [param, values, mode] lists."

/-- The item loop of `_normalize_wedges`: a modern entry
(`node -> [[param, values, mode], …]`) is stored with dict assignment
`normalized[node] = converted`; a legacy entry
(`param -> [node, values, mode]`) is re-keyed by node with
`normalized.setdefault(node, []).append([param, values, mode])`. -/
def normWedgesGo (items : List (String × PyVal)) (acc : List (String × List (List PyVal))) :
    Except String (List (String × List (List PyVal))) :=
  match items with
  | [] => .ok acc
  | (key, value) :: rest =>
    match value with
    | .list vs =>
      if isModernWedgeValue vs then
        match checkWedgeEntries vs with
        | .error e => .error e
        | .ok converted => normWedgesGo rest (dictUpdate acc key (fun _ => converted) [])
      else
        match vs with
        | [node, values_config, mode] =>
          match node with
          | .str n => normWedgesGo rest (dictAppendEntry acc n [.str key, values_config, mode])
          | _ => .error "Legacy param_wedges entries must include a node title string."
        | _ => .error "Unrecognized param_wedges entry."
    | _ => .error "Unrecognized param_wedges entry."

/-- `WedgeConfig._normalize_wedges`: accepts `None`/empty or a dict in the
modern or legacy shape, and produces the node-keyed dict form. -/
def WedgeConfig._normalize_wedges (raw : PyVal) : Except String (List (String × List (List PyVal))) :=
  if PyVal.beq raw .none || PyVal.beq raw (.dict []) then .ok []
  else match raw with
    | .dict kvs => normWedgesGo kvs []
    | _ => .error "param_wedges must be a dictionary."

/-- The wedge-kind check of `vet`: `wedge[2] in ("minmax", "explicit")`. -/
def wedgeKindOk (e : List PyVal) : Bool :=
  match e.get? 2 with
  | some wt => PyVal.beq wt (.str "minmax") || PyVal.beq wt (.str "explicit")
  | Option.none => false

/-- `WedgeConfig.vet` as a pass/fail check, in source order: the three
string fields non-empty, every override entry a 2-list, every wedge entry a
3-list with a recognized kind.  (The `isinstance` checks of the source hold
by construction in this typed model.) -/
def WedgeConfig.vet (c : WedgeConfig) : Bool :=
  (WedgeConfig.output_folder c != "") &&
  ( WedgeConfig.filename_prefix c != "") &&
  (WedgeConfig.url c != "") &&
  (WedgeConfig.param_overrides c).all (fun nv => nv.2.all (fun e => e.length == 2)) &&
  (WedgeConfig.param_wedges c).all (fun nv => nv.2.all (fun e => e.length == 3 && wedgeKindOk e))

/-- `WedgeConfig.from_dict`: read the fields (preferring `output_folder`
and falling back to the legacy `project_name` when the former is missing or
falsy), normalize overrides and wedges, and validate.  Vet failures on
non-string fields are collapsed into the error case directly. -/
def WedgeConfig.from_dict (data : PyVal) : Except String WedgeConfig :=
  match data with
  | .dict kvs =>
    let lhs := (dictGet? kvs "output_folder").getD .none
    let ofRaw := if pyTruthy lhs then lhs else (dictGet? kvs "project_name").getD (.str "")
    let fpRaw := (dictGet? kvs "filename_prefix").getD (.str "")
    let urlRaw := (dictGet? kvs "url").getD (.str "")
    match WedgeConfig._normalize_overrides ((dictGet? kvs "param_overrides").getD (.dict [])) with
    | .error e => .error e
    | .ok overrides =>
      match WedgeConfig._normalize_wedges ((dictGet? kvs "param_wedges").getD (.dict [])) with
      | .error e => .error e
      | .ok wedges =>
        match ofRaw, fpRaw, urlRaw with
        | .str o, .str f, .str u =>
          let config : WedgeConfig :=
            { output_folder := o,
              filename_prefix := f,
              url := u,
              param_overrides := overrides,
              param_wedges := wedges }
          if WedgeConfig.vet config then .ok config else .error "validation failed"
        | _, _, _ => .error "validation failed: field must be a string"
  | _ => .error "from_dict expects a dictionary."

/-- `WedgeConfig.to_dict`: the JSON-serialisable form, always in the
canonical (current) shape. -/
def WedgeConfig.to_dict (c : WedgeConfig) : PyVal :=
  .dict
    [("output_folder", .str (WedgeConfig.output_folder c)),
     ("filename_prefix", .str ( WedgeConfig.filename_prefix c)),
     ("url", .str (WedgeConfig.url c)),
     ("param_overrides",
       .dict ((WedgeConfig.param_overrides c).map (fun nv => (nv.1, PyVal.list (nv.2.map PyVal.list))))),
     ("param_wedges",
       .dict ((WedgeConfig.param_wedges c).map (fun nv => (nv.1, PyVal.list (nv.2.map PyVal.list)))))]

/-- `entry[0] != param` as used by the mutators to filter a node's entry
list.  (A vetted entry is a nonempty list; an empty entry, on which the
source would raise, is treated as non-matching.) -/
def entryKeyIsNot (param : String) (entry : List PyVal) : Bool :=
  !(PyVal.beq (entry.headD PyVal.none) (.str param))

/-- `WedgeConfig.set_param_override`: drop any entry of the node keyed by
`param`, then append `[param, value]` (replace semantics, node list created
on demand by `setdefault`). -/
def WedgeConfig.set_param_override (c : WedgeConfig) (node_name param : String) (value : PyVal) :
    WedgeConfig :=
  { c with param_overrides :=
      (dictUpdate (WedgeConfig.param_overrides c) node_name
        (fun overrides => overrides.filter (entryKeyIsNot param) ++ [[.str param, value]]) []) }

/-- `WedgeConfig.remove_param_override`: filter the node's entries by
`param`; a missing or empty node list is a no-op returning `false`; when
the filtered list is empty, the node key is popped; returns whether the
length changed. -/
def WedgeConfig.remove_param_override (c : WedgeConfig) (node_name param : String) :
    WedgeConfig × Bool :=
  match dictGet? (WedgeConfig.param_overrides c) node_name with
  | Option.none => (c, false)
  | some overrides =>
    if overrides.isEmpty then (c, false)
    else
      let filtered := overrides.filter (entryKeyIsNot param)
      let newMap :=
        if filtered.isEmpty then dictRemove (WedgeConfig.param_overrides c) node_name
        else dictUpdate (WedgeConfig.param_overrides c) node_name (fun _ => filtered) []
      ({ c with param_overrides := newMap }, filtered.length != overrides.length)

/-- `WedgeConfig.set_param_wedge`: reject an unsupported kind, else replace
semantics keyed by `param`, appending `[param, list(wedge_values), kind]`. -/
def WedgeConfig.set_param_wedge (c : WedgeConfig) (node_name param : String)
    (wedge_values : List PyVal) (wedge_type : String) : Except String WedgeConfig :=
  if wedge_type ≠ "minmax" ∧ wedge_type ≠ "explicit" then
    .error "wedge_type must be minmax or explicit."
  else
    .ok { c with param_wedges :=
      (dictUpdate (WedgeConfig.param_wedges c) node_name
        (fun wedges => wedges.filter (entryKeyIsNot param) ++
          [[.str param, .list wedge_values, .str wedge_type]]) []) }

/-- `WedgeConfig.remove_param_wedge`: as `remove_param_override`, on the
wedge map. -/
def WedgeConfig.remove_param_wedge (c : WedgeConfig) (node_name param : String) :
    WedgeConfig × Bool :=
  match dictGet? (WedgeConfig.param_wedges c) node_name with
  | Option.none => (c, false)
  | some wedges =>
    if wedges.isEmpty then (c, false)
    else
      let filtered := wedges.filter (entryKeyIsNot param)
      let newMap :=
        if filtered.isEmpty then dictRemove (WedgeConfig.param_wedges c) node_name
        else dictUpdate (WedgeConfig.param_wedges c) node_name (fun _ => filtered) []
      ({ c with param_wedges := newMap }, filtered.length != wedges.length)

end WedgeConfigManager

namespace WedgeSubmitter

/-- The inner loop of `apply_param_overrides` for one node: each
`[param, value]` entry is applied with `set_param_value`; a failure raises.
(A malformed entry, which the source unpacking would reject, also errors.) -/
def applyOverrideEntries (w : Workflow) (node : String) :
    List (List PyVal) → Except String Workflow
  | [] => .ok w
  | entry :: rest =>
    match entry with
    | [.str param, value] =>
      match set_param_value w node param value with
      | Option.none => .error ("Failed to set override " ++ node ++ "." ++ param)
      | some w2 => applyOverrideEntries w2 node rest
    | _ => .error ("Failed to set override for node " ++ node)

/-- `wedge_submitter.apply_param_overrides`: apply every static override of
the config to the workflow, raising on the first location the template
rejects. -/
def apply_param_overrides (w : Workflow) (config : WedgeConfigManager.WedgeConfig) :
    Except String Workflow :=
  go w (WedgeConfigManager.WedgeConfig.param_overrides config)
where
  go (w : Workflow) : List (String × List (List PyVal)) → Except String Workflow
  | [] => .ok w
  | (node, overrides) :: rest =>
    match applyOverrideEntries w node overrides with
    | .error e => .error e
    | .ok w2 => go w2 rest

/-- The inner loop of `apply_combination` for one node. -/
def applyParams (w : Workflow) (node : String) :
    List (String × PyVal) → Except String Workflow
  | [] => .ok w
  | (param, value) :: rest =>
    match set_param_value w node param value with
    | Option.none => .error ("Failed to set wedge parameter " ++ node ++ "." ++ param)
    | some w2 => applyParams w2 node rest

/-- `wedge_submitter.apply_combination`: apply one assignment to the
workflow, raising on the first location the template rejects. -/
def apply_combination (w : Workflow) (combination : Assignment) : Except String Workflow :=
  go w combination
where
  go (w : Workflow) : Assignment → Except String Workflow
  | [] => .ok w
  | (node, params) :: rest =>
    match applyParams w node params with
    | .error e => .error e
    | .ok w2 => go w2 rest

/-- The preparation step of one iteration of the submission loop in `main`:
deep-copy the base workflow (identity in this pure model), apply the static
overrides, then apply the combination. -/
def prepareRun (base : Workflow) (config : WedgeConfigManager.WedgeConfig)
    (combination : Assignment) : Except String Workflow :=
  match apply_param_overrides base config with
  | .error e => .error e
  | .ok w => apply_combination w combination

/-- The submission loop of `main` with its failure behaviour: combinations
are processed in order; a preparation failure propagates out of the loop
immediately, so the result is the list of completed submissions
`(idx, combination)` together with the error, if any, that ended the run. -/
def runLoop (base : Workflow) (config : WedgeConfigManager.WedgeConfig) :
    List Assignment → Nat → List (Nat × Assignment) × Option String
  | [], _ => ([], Option.none)
  | c :: rest, idx =>
    match prepareRun base config c with
    | .error e => ([], some e)
    | .ok _ =>
      let r := runLoop base config rest (idx + 1)
      ((idx, c) :: r.1, r.2)

/-- The whole submission phase of `main`: enumerate the combinations,
clamped by `max_runs`, starting the 1-based index at 1. -/
def runSweep (base : Workflow) (config : WedgeConfigManager.WedgeConfig)
    (axes : List Axis) (limit : Option Nat) : List (Nat × Assignment) × Option String :=
  runLoop base config ((iter_combinations axes).take (max_runs axes limit)) 1

end WedgeSubmitter

namespace WedgeSubmitter

/-- The naming contract as the specification words it: the prefix followed
by, for each node in lexicographic order and each param in lexicographic
order within its node, the token `node-param-sanitize(value)`, all joined
with the double-underscore separator. -/
def buildNameSpec (pfx : String) (assignment : Assignment) : String :=
  String.intercalate "__"
    (pfx :: (sortStrings (dictKeys assignment)).flatMap (fun node =>
      let params := (dictGet? assignment node).getD []
      (sortStrings (dictKeys params)).map (fun param =>
        node ++ "-" ++ param ++ "-" ++ sanitize_value ((dictGet? params param).getD PyVal.none))))

/-- The rational magnitude of a numeric `PyVal` (the values produced by
`_coerce_numeric` are `.int` or `.float`); used to state monotonicity. -/
def pyRatVal : PyVal → Rat
  | .int n => (n : Rat)
  | .float q => q
  | .bool b => if b then 1 else 0
  | _ => 0

/-- The loop exit test of `expand_wedge_values` at a current value `c`. -/
def breakCond (stop tol : Rat) (dir : Int) (c : Rat) : Prop :=
  (0 < dir ∧ stop + tol < c) ∨ (dir < 0 ∧ c < stop - tol)

instance (stop tol : Rat) (dir : Int) (c : Rat) : Decidable (breakCond stop tol dir c) := by
  unfold breakCond; infer_instance

/-- Two axes of sizes 3 and 4: a combination space of total size 12. -/
def axesTotal12 : List Axis :=
  [(("A", "p"), [.int 0, .int 1, .int 2]),
   (("B", "q"), [.int 0, .int 1, .int 2, .int 3])]

/-- Two axes of sizes 2 and 1: the last axis is a singleton, so the second
combination cannot advance it. -/
def axesLastSingleton : List Axis :=
  [(("A", "p"), [.int 0, .int 1]), (("B", "q"), [.int 7])]

end WedgeSubmitter

namespace WedgeConfigManager

/-- A canonical `WedgeConfig`: the shape `vet` demands (non-empty string
fields, 2-list override entries, 3-list wedge entries with recognized
kinds), with per-node wedge lists non-empty and node keys free of
duplicates (both automatic for a dict deserialised from JSON). -/
abbrev Canonical (c : WedgeConfig) : Prop :=
  WedgeConfig.output_folder c ≠ "" ∧
  WedgeConfig.filename_prefix c ≠ "" ∧
  WedgeConfig.url c ≠ "" ∧
  (∀ nv ∈ WedgeConfig.param_overrides c, ∀ e ∈ nv.2, e.length = 2) ∧
  (∀ nv ∈ WedgeConfig.param_wedges c,
    nv.2.isEmpty = false ∧ ∀ e ∈ nv.2, e.length = 3 ∧ wedgeKindOk e = true) ∧
  (dictKeys (WedgeConfig.param_overrides c)).Nodup ∧
  (dictKeys (WedgeConfig.param_wedges c)).Nodup

/-- No node of an override/wedge map is bound to an empty entry list. -/
abbrev NoEmptyNode (m : List (String × List (List PyVal))) : Prop :=
  ∀ nv ∈ m, nv.2.isEmpty = false

/-- The numeric-coercion rule of `_coerce_numeric` as amended: a float is
rounded to 10 decimals; it becomes its nearest integer (ties to even) when
within the relative tolerance `1e-9 * max(|rounded|, |nearest|)` of it
(Python `math.isclose` with default tolerances), and otherwise stays the
rounded float; everything else passes through. -/
def coerceRuleAmended (v : PyVal) : PyVal :=
  match v with
  | .bool b => .bool b
  | .int n => .int n
  | .float q =>
    let r := pyRound q 10
    let n := roundHalfEven r
    if |r - (n : Rat)| ≤ (1 / 10 ^ 9) * max |r| |(n : Rat)| then .int n else .float r
  | w => w

end WedgeConfigManager


/-! ## Helper lemmas -/

lemma mathIsClose_eq_true_iff (a b : Rat) :
    mathIsClose a b = true ↔ |a - b| ≤ (1 / 10 ^ 9) * max |a| |b| := by
  have h : max ((1 / 10 ^ 9 : Rat) * max |a| |b|) 0 = (1 / 10 ^ 9) * max |a| |b| :=
    max_eq_left (by positivity)
  rw [mathIsClose, h, decide_eq_true_eq]

lemma foldl_append_singleton {α β : Type} (f : α → β) :
    ∀ (l : List α) (init : List β),
      l.foldl (fun acc x => acc ++ [f x]) init = init ++ l.map f := by
  intro l
  induction l with
  | nil => intro init; simp
  | cons x xs ih => intro init; simp [ih]

lemma foldl_append_flat {α β : Type} (f : α → List β) :
    ∀ (l : List α) (init : List β),
      l.foldl (fun acc x => acc ++ f x) init = init ++ l.flatMap f := by
  intro l
  induction l with
  | nil => intro init; simp
  | cons x xs ih => intro init; simp [ih]

/-! ## C10: the viewer reproduces the submitter's naming -/

/-- C10.  For every value, the stringify and sanitize helpers of
`view_wedges.py` return exactly the same strings as those of
`wedge_submitter.py`, and the base filename the viewer reconstructs for an
assignment equals the submitter's `build_filename` for the same prefix and
assignment. -/
theorem C10_viewer_matches_submitter :
    (∀ v : PyVal, ViewWedges.stringify_value v = WedgeSubmitter.stringify_value v) ∧
    (∀ v : PyVal, ViewWedges.sanitize_value v = WedgeSubmitter.sanitize_value v) ∧
    (∀ (pfx : String) (combo : WedgeSubmitter.Assignment),
      ViewWedges.reconstructBase pfx combo = WedgeSubmitter.build_filename pfx combo) := by
  refine ⟨fun v => ?_, fun v => ?_, fun pfx combo => ?_⟩
  · cases v <;> rfl
  · cases v <;> rfl
  · rfl

/-! ## C6: legacy-shape normalization -/

/-- C6.  Normalizing the legacy override list `[["A","p",1]]` yields the
canonical node-keyed mapping, and normalizing the legacy wedge mapping
`{"p": ["A", [0,1,0.5], "minmax"]}` yields the canonical node-keyed
mapping, re-keyed by node. -/
theorem C6_legacy_normalization :
    WedgeConfigManager.WedgeConfig._normalize_overrides
        (.list [.list [.str "A", .str "p", .int 1]]) =
      .ok [("A", [[.str "p", .int 1]])] ∧
    WedgeConfigManager.WedgeConfig._normalize_wedges
        (.dict [("p", .list [.str "A", .list [.int 0, .int 1, .float (1/2)], .str "minmax"])]) =
      .ok [("A", [[.str "p", .list [.int 0, .int 1, .float (1/2)], .str "minmax"]])] :=
  ⟨rfl, rfl⟩

/-! ## C3: the numeric-coercion rule -/

/-- C3 counterexample.  `1e9 + 0.5` is fixed by rounding to 10 decimals and
is half an integer away from either neighbouring integer, so the claimed
rule (integerize only within `1e-10` of the nearest integer) keeps it a
float; the code, using `math.isclose` with relative tolerance `1e-9`,
coerces it to the integer `10^9`. -/
theorem C3_counterexample :
    WedgeSubmitter._coerce_numeric (.float ((1000000000 : Rat) + 1/2)) =
      .int 1000000000 ∧
    pyRound ((1000000000 : Rat) + 1/2) 10 = (1000000000 : Rat) + 1/2 ∧
    ¬(|((1000000000 : Rat) + 1/2) - (1000000000 : Rat)| ≤ 1 / 10 ^ 10) ∧
    ¬(|((1000000000 : Rat) + 1/2) - ((1000000000 : Rat) + 1)| ≤ 1 / 10 ^ 10) ∧
    PyVal.int 1000000000 ≠ PyVal.float ((1000000000 : Rat) + 1/2) :=
  ⟨rfl, by decide, by decide, by decide, fun h => PyVal.noConfusion h⟩

/-- C3 (amended).  `_coerce_numeric` keeps booleans, integers and non-float
values unchanged, and maps a float to its rounding to 10 decimal digits,
coerced to the nearest integer (ties to even) exactly when that rounding is
within the relative tolerance `1e-9 * max(|rounded|, |nearest|)` of the
integer (`math.isclose` with default tolerances), never by an absolute
`1e-10` test. -/
theorem C3_coerce_numeric_rule (v : PyVal) :
    WedgeSubmitter._coerce_numeric v = WedgeConfigManager.coerceRuleAmended v := by
  cases v <;> try rfl
  case float q =>
    show (if mathIsClose (pyRound q 10) ((roundHalfEven (pyRound q 10) : Int) : Rat) then
        PyVal.int (roundHalfEven (pyRound q 10))
      else PyVal.float (pyRound q 10)) = _
    rw [WedgeConfigManager.coerceRuleAmended]
    by_cases h : |pyRound q 10 - ((roundHalfEven (pyRound q 10) : Int) : Rat)| ≤
        (1 / 10 ^ 9) * max |pyRound q 10| |((roundHalfEven (pyRound q 10) : Int) : Rat)|
    · rw [if_pos ((mathIsClose_eq_true_iff _ _).mpr h), if_pos h]
    · rw [if_neg (fun hc => h ((mathIsClose_eq_true_iff _ _).mp hc)), if_neg h]

/-! ## C1: the naming contract -/

/-- C1.  For every prefix and assignment, `build_filename` returns the
prefix followed by, for each node in lexicographic order and each param in
lexicographic order within its node, the token
`node ++ "-" ++ param ++ "-" ++ sanitize_value value`, all joined with the
separator `"__"`; in particular `build_filename` on
`("img", {"A": {"p": 3.0}, "B": {"q": "x y"}})` is `"img__A-p-3__B-q-x_y"`. -/
theorem C1_build_filename_contract :
    (∀ (pfx : String) (assignment : WedgeSubmitter.Assignment),
      WedgeSubmitter.build_filename pfx assignment =
        WedgeSubmitter.buildNameSpec pfx assignment) ∧
    WedgeSubmitter.build_filename "img"
        [("A", [("p", .float 3)]), ("B", [("q", .str "x y")])] =
      "img__A-p-3__B-q-x_y" := by
  constructor
  · intro pfx assignment
    simp only [WedgeSubmitter.build_filename, WedgeSubmitter.buildNameSpec,
      foldl_append_singleton, foldl_append_flat, List.singleton_append]
  · decide

/-! ## C7: run-count clamping and progress reporting -/

/-- C7 counterexample.  With `total_runs = 12` and `--limit 5` the
submission loop does submit exactly 5 combinations, but the progress line
of the k-th submission is `[k/max_runs]`, so the 5th submission reports
`5/5`, not `5/12`; the true total 12 appears only in the preview listing. -/
theorem C7_counterexample :
    WedgeSubmitter.total_runs WedgeSubmitter.axesTotal12 = 12 ∧
    (WedgeSubmitter.submitLog WedgeSubmitter.axesTotal12 (some 5)).length = 5 ∧
    (WedgeSubmitter.submitLog WedgeSubmitter.axesTotal12 (some 5)).map
        (fun p => (p.1, p.2.1)) = [(1, 5), (2, 5), (3, 5), (4, 5), (5, 5)] ∧
    ((WedgeSubmitter.submitLog WedgeSubmitter.axesTotal12 (some 5)).getLast?).map
        (fun p => p.2.1) ≠ some 12 := by
  refine ⟨by decide, by decide, by decide, by decide⟩

/-! ## C9: empty node sequences -/

/-- C9 counterexample.  `from_dict` accepts (and `vet` passes) a config
whose `param_overrides` maps node `"A"` to an empty entry list: the dict
branch of `_normalize_overrides` keeps empty per-node lists verbatim, so
the no-empty-sequence property does not hold after
construction/normalization. -/
theorem C9_counterexample :
    WedgeConfigManager.WedgeConfig.from_dict (.dict
        [("output_folder", .str "o"),
         ("filename_prefix", .str "f"),
         ("url", .str "u"),
         ("param_overrides", .dict [("A", .list [])]),
         ("param_wedges", .dict [])]) =
      .ok { output_folder := "o",
            filename_prefix := "f",
            url := "u",
            param_overrides := [("A", [])],
            param_wedges := [] } ∧
    dictGet? [("A", ([] : List (List PyVal)))] "A" = some [] :=
  ⟨rfl, rfl⟩

/-! ## C4: combination enumeration order -/

/-- C4 counterexample.  Over axes of sizes `[2, 1]` the enumeration yields
two assignments; the second agrees with the first at the last axis
`("B","q")` and advances the first axis instead, so the second assignment
does not differ from the first by advancing the last axis. -/
theorem C4_counterexample :
    (WedgeSubmitter.iter_combinations WedgeSubmitter.axesLastSingleton).length = 2 ∧
    WedgeSubmitter.iter_combinations WedgeSubmitter.axesLastSingleton =
      [[("A", [("p", PyVal.int 0)]), ("B", [("q", PyVal.int 7)])],
       [("A", [("p", PyVal.int 1)]), ("B", [("q", PyVal.int 7)])]] ∧
    [("A", [("p", PyVal.int 0)]), ("B", [("q", PyVal.int 7)])] ≠
      [("A", [("p", PyVal.int 1)]), ("B", [("q", PyVal.int 7)])] ∧
    dictGet? [("A", [("p", PyVal.int 0)]), ("B", [("q", PyVal.int 7)])] "B" =
      dictGet? [("A", [("p", PyVal.int 1)]), ("B", [("q", PyVal.int 7)])] "B" := by
  refine ⟨rfl, rfl, ?_, rfl⟩
  intro h
  simp only [List.cons.injEq, Prod.mk.injEq, PyVal.int.injEq] at h
  omega

lemma pyProduct_length (ls : List (List PyVal)) :
    (WedgeSubmitter.pyProduct ls).length = (ls.map List.length).prod := by
  induction ls with
  | nil => rfl
  | cons l ls ih =>
    simp [WedgeSubmitter.pyProduct, List.length_flatMap, ih, Nat.mul_comm,
      Function.comp_def]

lemma iter_combinations_length (axes : List WedgeSubmitter.Axis) :
    (WedgeSubmitter.iter_combinations axes).length = WedgeSubmitter.total_runs axes := by
  rw [WedgeSubmitter.iter_combinations, WedgeSubmitter.total_runs]
  by_cases h : axes.isEmpty
  · simp [h]
  · simp [h, pyProduct_length, List.map_map, Function.comp_def]

/-- C7 (amended).  A supplied run-count ceiling clamps the number of
submitted assignments to `min(total, ceiling)`; every submission-loop
progress entry reports the index against the clamped count `max_runs`
(so with total 12 and ceiling 5 the 5th submission reports 5/5), while the
preview listing reports against the true total. -/
theorem C7_clamped_progress :
    (∀ (axes : List WedgeSubmitter.Axis) (limit : Nat),
      (WedgeSubmitter.submitLog axes (some limit)).length =
        min (WedgeSubmitter.total_runs axes) limit) ∧
    (∀ (axes : List WedgeSubmitter.Axis) (limit : Option Nat)
        (p : Nat × Nat × WedgeSubmitter.Assignment),
      p ∈ WedgeSubmitter.submitLog axes limit →
        p.2.1 = WedgeSubmitter.max_runs axes limit) ∧
    (∀ (axes : List WedgeSubmitter.Axis) (limit : Option Nat)
        (p : Nat × Nat × WedgeSubmitter.Assignment),
      p ∈ WedgeSubmitter.previewLog axes limit →
        p.2.1 = WedgeSubmitter.total_runs axes) := by
  refine ⟨fun axes limit => ?_, fun axes limit p hp => ?_, fun axes limit p hp => ?_⟩
  · rw [WedgeSubmitter.submitLog]
    rw [List.length_map, List.enum_length, List.length_take, iter_combinations_length]
    rw [WedgeSubmitter.max_runs]
    omega
  · rw [WedgeSubmitter.submitLog] at hp
    rcases List.mem_map.mp hp with ⟨q, _, rfl⟩
    rfl
  · rw [WedgeSubmitter.previewLog] at hp
    rcases List.mem_map.mp hp with ⟨q, _, rfl⟩
    rfl

/-- C7 witness: the clamping and reporting facts evaluated on the concrete
12-combination axes with ceiling 5. -/
theorem C7_clamped_progress_witness :
    (WedgeSubmitter.submitLog WedgeSubmitter.axesTotal12 (some 5)).length =
      min (WedgeSubmitter.total_runs WedgeSubmitter.axesTotal12) 5 ∧
    (1, 5, [("A", [("p", PyVal.int 0)]), ("B", [("q", PyVal.int 0)])]) ∈
      WedgeSubmitter.submitLog WedgeSubmitter.axesTotal12 (some 5) ∧
    ((1, 5, ([("A", [("p", PyVal.int 0)]), ("B", [("q", PyVal.int 0)])] :
        WedgeSubmitter.Assignment)) : Nat × Nat × WedgeSubmitter.Assignment).2.1 =
      WedgeSubmitter.max_runs WedgeSubmitter.axesTotal12 (some 5) ∧
    (1, 12, [("A", [("p", PyVal.int 0)]), ("B", [("q", PyVal.int 0)])]) ∈
      WedgeSubmitter.previewLog WedgeSubmitter.axesTotal12 (some 5) ∧
    ((1, 12, ([("A", [("p", PyVal.int 0)]), ("B", [("q", PyVal.int 0)])] :
        WedgeSubmitter.Assignment)) : Nat × Nat × WedgeSubmitter.Assignment).2.1 =
      WedgeSubmitter.total_runs WedgeSubmitter.axesTotal12 := by
  have hm : (1, 5, ([("A", [("p", PyVal.int 0)]), ("B", [("q", PyVal.int 0)])] :
      WedgeSubmitter.Assignment)) ∈
      WedgeSubmitter.submitLog WedgeSubmitter.axesTotal12 (some 5) := List.Mem.head _
  have hp : (1, 12, ([("A", [("p", PyVal.int 0)]), ("B", [("q", PyVal.int 0)])] :
      WedgeSubmitter.Assignment)) ∈
      WedgeSubmitter.previewLog WedgeSubmitter.axesTotal12 (some 5) := List.Mem.head _
  exact ⟨C7_clamped_progress.1 WedgeSubmitter.axesTotal12 5,
    hm, C7_clamped_progress.2.1 WedgeSubmitter.axesTotal12 (some 5) _ hm,
    hp, C7_clamped_progress.2.2 WedgeSubmitter.axesTotal12 (some 5) _ hp⟩

/-! ## C8: an apply failure halts the run -/

lemma runLoop_spec (base : WedgeSubmitter.Workflow) (config : WedgeConfigManager.WedgeConfig) :
    ∀ (combos : List WedgeSubmitter.Assignment) (k idx : Nat),
      k < combos.length →
      (∃ e, WedgeSubmitter.prepareRun base config (combos.getD k []) = .error e) →
      (∀ i, i < k → ∃ w, WedgeSubmitter.prepareRun base config (combos.getD i []) = .ok w) →
      (WedgeSubmitter.runLoop base config combos idx).1 =
        (List.range k).map (fun i => (idx + i, combos.getD i [])) ∧
      ∃ e, (WedgeSubmitter.runLoop base config combos idx).2 = some e := by
  intro combos
  induction combos with
  | nil => intro k idx hk; exact absurd hk (by simp)
  | cons c rest ih =>
    intro k idx hk hfail hok
    match k with
    | 0 =>
      rcases hfail with ⟨e, he⟩
      have he2 : WedgeSubmitter.prepareRun base config c = .error e := he
      rw [WedgeSubmitter.runLoop, he2]
      exact ⟨by simp, e, rfl⟩
    | k1 + 1 =>
      rcases hok 0 (Nat.succ_pos k1) with ⟨w, hw⟩
      have hw2 : WedgeSubmitter.prepareRun base config c = .ok w := hw
      rw [WedgeSubmitter.runLoop, hw2]
      have hk1 : k1 < rest.length := by simpa using hk
      have hfail1 : ∃ e, WedgeSubmitter.prepareRun base config (rest.getD k1 []) = .error e := by
        simpa using hfail
      have hok1 : ∀ i, i < k1 → ∃ w2,
          WedgeSubmitter.prepareRun base config (rest.getD i []) = .ok w2 := by
        intro i hi
        have := hok (i + 1) (by omega)
        simpa using this
      rcases ih k1 (idx + 1) hk1 hfail1 hok1 with ⟨h1, e, h2⟩
      refine ⟨?_, e, h2⟩
      simp only [h1, List.range_succ_eq_map, List.map_cons, List.map_map]
      refine congrArg₂ List.cons (by simp) ?_
      refine List.map_congr_left fun i _ => ?_
      simp [Function.comp_def, Nat.add_assoc, Nat.add_comm 1 i]

/-- C8.  If preparing the (k+1)-st of the enumerated assignments fails
(the template rejects an override or assignment location) while the first
k prepare successfully, the run loop ends with exactly the k
already-completed submissions, indexed 1..k in order, and an error; no
later assignment is prepared or submitted and the completed ones are
retained (not rolled back). -/
theorem C8_apply_error_halts (base : WedgeSubmitter.Workflow)
    (config : WedgeConfigManager.WedgeConfig)
    (combos : List WedgeSubmitter.Assignment) (k : Nat)
    (hk : k < combos.length)
    (hfail : ∃ e, WedgeSubmitter.prepareRun base config (combos.getD k []) = .error e)
    (hok : ∀ i, i < k → ∃ w, WedgeSubmitter.prepareRun base config (combos.getD i []) = .ok w) :
    (WedgeSubmitter.runLoop base config combos 1).1 =
      (List.range k).map (fun i => (1 + i, combos.getD i [])) ∧
    ∃ e, (WedgeSubmitter.runLoop base config combos 1).2 = some e :=
  runLoop_spec base config combos k 1 hk hfail hok

/-- C8 witness: a concrete template with a single node `A.p`, a sweep of
three assignments whose second addresses the missing node `B`; the loop
completes exactly the first submission and stops with an error. -/
theorem C8_apply_error_halts_witness :
    (1 : Nat) < ([[("A", [("p", PyVal.int 1)])], [("B", [("q", PyVal.int 2)])],
        [("A", [("p", PyVal.int 3)])]] : List WedgeSubmitter.Assignment).length ∧
    (WedgeSubmitter.runLoop [("A", [("p", PyVal.int 0)])]
        { output_folder := "o", filename_prefix := "f", url := "u",
          param_overrides := [], param_wedges := [] }
        [[("A", [("p", PyVal.int 1)])], [("B", [("q", PyVal.int 2)])],
         [("A", [("p", PyVal.int 3)])]] 1).1 =
      (List.range 1).map (fun i =>
        (1 + i, ([[("A", [("p", PyVal.int 1)])], [("B", [("q", PyVal.int 2)])],
          [("A", [("p", PyVal.int 3)])]] : List WedgeSubmitter.Assignment).getD i [])) ∧
    ∃ e, (WedgeSubmitter.runLoop [("A", [("p", PyVal.int 0)])]
        { output_folder := "o", filename_prefix := "f", url := "u",
          param_overrides := [], param_wedges := [] }
        [[("A", [("p", PyVal.int 1)])], [("B", [("q", PyVal.int 2)])],
         [("A", [("p", PyVal.int 3)])]] 1).2 = some e := by
  have h := C8_apply_error_halts [("A", [("p", PyVal.int 0)])]
    { output_folder := "o", filename_prefix := "f", url := "u",
      param_overrides := [], param_wedges := [] }
    [[("A", [("p", PyVal.int 1)])], [("B", [("q", PyVal.int 2)])],
     [("A", [("p", PyVal.int 3)])]] 1
    (by decide) ⟨"Failed to set wedge parameter B.q", rfl⟩
    (fun i hi => by
      interval_cases i
      exact ⟨[("A", [("p", PyVal.int 1)])], rfl⟩)
  exact ⟨by decide, h.1, h.2⟩

/-! ## C9: the no-empty-node invariant -/

lemma mem_dictUpdate {α : Type} (k : String) (f : α → α) (dflt : α) :
    ∀ (d : List (String × α)) (nv : String × α), nv ∈ dictUpdate d k f dflt →
      nv ∈ d ∨ ∃ x, nv = (k, f x) := by
  intro d
  induction d with
  | nil =>
    intro nv hnv
    simp only [dictUpdate, List.mem_singleton] at hnv
    exact Or.inr ⟨dflt, hnv⟩
  | cons kv rest ih =>
    intro nv hnv
    rw [dictUpdate] at hnv
    by_cases hk : kv.1 = k
    · rw [if_pos hk] at hnv
      rcases List.mem_cons.mp hnv with h | h
      · exact Or.inr ⟨kv.2, h⟩
      · exact Or.inl (List.mem_cons_of_mem _ h)
    · rw [if_neg hk] at hnv
      rcases List.mem_cons.mp hnv with h | h
      · exact Or.inl (h ▸ List.mem_cons_self _ _)
      · rcases ih nv h with h2 | h2
        · exact Or.inl (List.mem_cons_of_mem _ h2)
        · exact Or.inr h2

lemma mem_dictRemove {α : Type} (k : String) :
    ∀ (d : List (String × α)) (nv : String × α), nv ∈ dictRemove d k → nv ∈ d := by
  intro d
  induction d with
  | nil => intro nv hnv; simpa [dictRemove] using hnv
  | cons kv rest ih =>
    intro nv hnv
    rw [dictRemove] at hnv
    by_cases hk : kv.1 = k
    · rw [if_pos hk] at hnv
      exact List.mem_cons_of_mem _ hnv
    · rw [if_neg hk] at hnv
      rcases List.mem_cons.mp hnv with h | h
      · exact h ▸ List.mem_cons_self _ _
      · exact List.mem_cons_of_mem _ (ih nv h)

lemma mem_dictAppendEntry {α : Type} (k : String) (x : α)
    (d : List (String × List α)) (nv : String × List α)
    (hnv : nv ∈ dictAppendEntry d k x) : nv ∈ d ∨ ∃ l, nv = (k, l ++ [x]) :=
  mem_dictUpdate k (fun l => l ++ [x]) [] d nv hnv

lemma isModernWedgeValue_shape {vs : List PyVal}
    (h : WedgeConfigManager.isModernWedgeValue vs = true) :
    ∃ e vrest, vs = PyVal.list e :: vrest := by
  match vs, h with
  | .list e :: vrest, _ => exact ⟨e, vrest, rfl⟩

lemma checkWedgeEntries_cons_ne_nil {x : PyVal} {rest : List PyVal} {l : List (List PyVal)}
    (h : WedgeConfigManager.checkWedgeEntries (x :: rest) = .ok l) : l.isEmpty = false := by
  cases x with
  | list e =>
    simp only [WedgeConfigManager.checkWedgeEntries] at h
    by_cases hl : e.length = 3
    · rw [if_pos hl] at h
      cases hc : WedgeConfigManager.checkWedgeEntries rest with
      | error err => rw [hc] at h; exact Except.noConfusion h
      | ok es => rw [hc] at h; cases h; rfl
    · rw [if_neg hl] at h; exact Except.noConfusion h
  | none => exact Except.noConfusion h
  | bool b => exact Except.noConfusion h
  | int n => exact Except.noConfusion h
  | float q => exact Except.noConfusion h
  | str s => exact Except.noConfusion h
  | dict kvs => exact Except.noConfusion h

lemma normWedgesGo_noEmpty :
    ∀ (items : List (String × PyVal)) (acc out : List (String × List (List PyVal))),
      WedgeConfigManager.NoEmptyNode acc →
      WedgeConfigManager.normWedgesGo items acc = .ok out →
      WedgeConfigManager.NoEmptyNode out := by
  intro items
  induction items with
  | nil =>
    intro acc out hacc h
    rw [WedgeConfigManager.normWedgesGo] at h
    cases h; exact hacc
  | cons kv rest ih =>
    intro acc out hacc h
    obtain ⟨key, value⟩ := kv
    cases value with
    | list vs =>
      simp only [WedgeConfigManager.normWedgesGo] at h
      by_cases hm : WedgeConfigManager.isModernWedgeValue vs = true
      · rw [if_pos hm] at h
        cases hc : WedgeConfigManager.checkWedgeEntries vs with
        | error err => rw [hc] at h; exact Except.noConfusion h
        | ok converted =>
          rw [hc] at h
          refine ih _ out ?_ h
          intro nv hnv
          rcases mem_dictUpdate key (fun _ => converted) [] acc nv hnv with h2 | ⟨x, rfl⟩
          · exact hacc nv h2
          · rcases isModernWedgeValue_shape hm with ⟨e, vrest, rfl⟩
            exact checkWedgeEntries_cons_ne_nil hc
      · rw [if_neg hm] at h
        cases vs with
        | nil => exact Except.noConfusion h
        | cons v0 vs0 =>
          cases vs0 with
          | nil => exact Except.noConfusion h
          | cons v1 vs1 =>
            cases vs1 with
            | nil => exact Except.noConfusion h
            | cons v2 vs2 =>
              cases vs2 with
              | cons v3 vs3 => exact Except.noConfusion h
              | nil =>
                cases v0 with
                | str n =>
                  refine ih _ out ?_ h
                  intro nv hnv
                  rcases mem_dictAppendEntry n [.str key, v1, v2] acc nv hnv with h2 | ⟨l, rfl⟩
                  · exact hacc nv h2
                  · simp
                | none => exact Except.noConfusion h
                | bool b => exact Except.noConfusion h
                | int n => exact Except.noConfusion h
                | float q => exact Except.noConfusion h
                | list xs => exact Except.noConfusion h
                | dict kvs => exact Except.noConfusion h
    | none => exact Except.noConfusion h
    | bool b => exact Except.noConfusion h
    | int n => exact Except.noConfusion h
    | float q => exact Except.noConfusion h
    | str s => exact Except.noConfusion h
    | dict kvs2 => exact Except.noConfusion h

lemma normOverridesList_noEmpty :
    ∀ (entries : List PyVal) (acc out : List (String × List (List PyVal))),
      WedgeConfigManager.NoEmptyNode acc →
      WedgeConfigManager.normOverridesList entries acc = .ok out →
      WedgeConfigManager.NoEmptyNode out := by
  intro entries
  induction entries with
  | nil =>
    intro acc out hacc h
    rw [WedgeConfigManager.normOverridesList] at h
    cases h; exact hacc
  | cons entry rest ih =>
    intro acc out hacc h
    cases entry with
    | list es =>
      cases es with
      | nil => exact Except.noConfusion h
      | cons v0 es0 =>
        cases es0 with
        | nil => exact Except.noConfusion h
        | cons v1 es1 =>
          cases es1 with
          | nil => exact Except.noConfusion h
          | cons v2 es2 =>
            cases es2 with
            | cons v3 es3 => exact Except.noConfusion h
            | nil =>
              cases v0 with
              | str n =>
                refine ih _ out ?_ h
                intro nv hnv
                rcases mem_dictAppendEntry n [v1, v2] acc nv hnv with h2 | ⟨l, rfl⟩
                · exact hacc nv h2
                · simp
              | none => exact Except.noConfusion h
              | bool b => exact Except.noConfusion h
              | int n => exact Except.noConfusion h
              | float q => exact Except.noConfusion h
              | list xs => exact Except.noConfusion h
              | dict kvs => exact Except.noConfusion h
    | none => exact Except.noConfusion h
    | bool b => exact Except.noConfusion h
    | int n => exact Except.noConfusion h
    | float q => exact Except.noConfusion h
    | str s => exact Except.noConfusion h
    | dict kvs => exact Except.noConfusion h

/-- C9 (amended).  The no-empty-sequence property is an invariant of every
mutator — setting an override or wedge replaces the (node, param) entry and
leaves the touched node non-empty, removing the last entry for a node
deletes the node key — and wedge normalization and legacy list-form
override normalization never produce an empty node sequence; only the
dict-form override normalization keeps an empty per-node list present in
its input (see the counterexample), so the invariant is not guaranteed
after construction. -/
theorem C9_no_empty_node_invariant :
    (∀ (c : WedgeConfigManager.WedgeConfig) (n p : String) (v : PyVal),
      WedgeConfigManager.NoEmptyNode (WedgeConfigManager.WedgeConfig.param_overrides c) →
      WedgeConfigManager.NoEmptyNode (WedgeConfigManager.WedgeConfig.param_overrides
        (WedgeConfigManager.WedgeConfig.set_param_override c n p v))) ∧
    (∀ (c : WedgeConfigManager.WedgeConfig) (n p : String),
      WedgeConfigManager.NoEmptyNode (WedgeConfigManager.WedgeConfig.param_overrides c) →
      WedgeConfigManager.NoEmptyNode (WedgeConfigManager.WedgeConfig.param_overrides
        (WedgeConfigManager.WedgeConfig.remove_param_override c n p).1)) ∧
    (∀ (c c2 : WedgeConfigManager.WedgeConfig) (n p : String)
        (vs : List PyVal) (wt : String),
      WedgeConfigManager.WedgeConfig.set_param_wedge c n p vs wt = .ok c2 →
      WedgeConfigManager.NoEmptyNode (WedgeConfigManager.WedgeConfig.param_wedges c) →
      WedgeConfigManager.NoEmptyNode (WedgeConfigManager.WedgeConfig.param_wedges c2)) ∧
    (∀ (c : WedgeConfigManager.WedgeConfig) (n p : String),
      WedgeConfigManager.NoEmptyNode (WedgeConfigManager.WedgeConfig.param_wedges c) →
      WedgeConfigManager.NoEmptyNode (WedgeConfigManager.WedgeConfig.param_wedges
        (WedgeConfigManager.WedgeConfig.remove_param_wedge c n p).1)) ∧
    (∀ (raw : PyVal) (out : List (String × List (List PyVal))),
      WedgeConfigManager.WedgeConfig._normalize_wedges raw = .ok out →
      WedgeConfigManager.NoEmptyNode out) ∧
    (∀ (entries : List PyVal) (out : List (String × List (List PyVal))),
      WedgeConfigManager.WedgeConfig._normalize_overrides (.list entries) = .ok out →
      WedgeConfigManager.NoEmptyNode out) := by
  refine ⟨?_, ?_, ?_, ?_, ?_, ?_⟩
  · intro c n p v hc nv hnv
    have hnv2 : nv ∈ dictUpdate (WedgeConfigManager.WedgeConfig.param_overrides c) n
        (fun overrides => overrides.filter (WedgeConfigManager.entryKeyIsNot p) ++
          [[.str p, v]]) [] := hnv
    rcases mem_dictUpdate n
        (fun overrides => overrides.filter (WedgeConfigManager.entryKeyIsNot p) ++
          [[.str p, v]]) []
        (WedgeConfigManager.WedgeConfig.param_overrides c) nv hnv2 with h2 | ⟨x, rfl⟩
    · exact hc nv h2
    · simp
  · intro c n p hc nv hnv
    cases hg : dictGet? (WedgeConfigManager.WedgeConfig.param_overrides c) n with
    | none =>
      simp only [WedgeConfigManager.WedgeConfig.remove_param_override, hg] at hnv
      exact hc nv hnv
    | some overrides =>
      simp only [WedgeConfigManager.WedgeConfig.remove_param_override, hg] at hnv
      by_cases he : overrides.isEmpty = true
      · rw [if_pos he] at hnv
        exact hc nv hnv
      · rw [if_neg he] at hnv
        by_cases hf : (overrides.filter (WedgeConfigManager.entryKeyIsNot p)).isEmpty = true
        · rw [if_pos hf] at hnv
          exact hc nv (mem_dictRemove n _ nv hnv)
        · rw [if_neg hf] at hnv
          rcases mem_dictUpdate n _ []
              (WedgeConfigManager.WedgeConfig.param_overrides c) nv hnv with h2 | ⟨x, rfl⟩
          · exact hc nv h2
          · simpa using hf
  · intro c c2 n p vs wt hset hc nv hnv
    rw [WedgeConfigManager.WedgeConfig.set_param_wedge] at hset
    by_cases hw : wt ≠ "minmax" ∧ wt ≠ "explicit"
    · rw [if_pos hw] at hset
      exact Except.noConfusion hset
    · rw [if_neg hw] at hset
      cases hset
      have hnv2 : nv ∈ dictUpdate (WedgeConfigManager.WedgeConfig.param_wedges c) n
          (fun wedges => wedges.filter (WedgeConfigManager.entryKeyIsNot p) ++
            [[.str p, .list vs, .str wt]]) [] := hnv
      rcases mem_dictUpdate n
          (fun wedges => wedges.filter (WedgeConfigManager.entryKeyIsNot p) ++
            [[.str p, .list vs, .str wt]]) []
          (WedgeConfigManager.WedgeConfig.param_wedges c) nv hnv2 with h2 | ⟨x, rfl⟩
      · exact hc nv h2
      · simp
  · intro c n p hc nv hnv
    cases hg : dictGet? (WedgeConfigManager.WedgeConfig.param_wedges c) n with
    | none =>
      simp only [WedgeConfigManager.WedgeConfig.remove_param_wedge, hg] at hnv
      exact hc nv hnv
    | some wedges =>
      simp only [WedgeConfigManager.WedgeConfig.remove_param_wedge, hg] at hnv
      by_cases he : wedges.isEmpty = true
      · rw [if_pos he] at hnv
        exact hc nv hnv
      · rw [if_neg he] at hnv
        by_cases hf : (wedges.filter (WedgeConfigManager.entryKeyIsNot p)).isEmpty = true
        · rw [if_pos hf] at hnv
          exact hc nv (mem_dictRemove n _ nv hnv)
        · rw [if_neg hf] at hnv
          rcases mem_dictUpdate n _ []
              (WedgeConfigManager.WedgeConfig.param_wedges c) nv hnv with h2 | ⟨x, rfl⟩
          · exact hc nv h2
          · simpa using hf
  · intro raw out h
    cases raw with
    | dict kvs =>
      cases kvs with
      | nil =>
        have h2 : (Except.ok [] : Except String (List (String × List (List PyVal)))) =
            .ok out := h
        cases h2
        intro nv hnv
        simp at hnv
      | cons kv krest =>
        have h2 : WedgeConfigManager.normWedgesGo (kv :: krest) [] = .ok out := h
        exact normWedgesGo_noEmpty (kv :: krest) [] out
          (fun nv hnv => absurd hnv (by simp)) h2
    | none =>
      have h2 : (Except.ok [] : Except String (List (String × List (List PyVal)))) =
          .ok out := h
      cases h2
      intro nv hnv
      simp at hnv
    | bool b => exact Except.noConfusion h
    | int n => exact Except.noConfusion h
    | float q => exact Except.noConfusion h
    | str s => exact Except.noConfusion h
    | list xs => exact Except.noConfusion h
  · intro entries out h
    exact normOverridesList_noEmpty entries [] out (fun nv hnv => absurd hnv (by simp)) h

/-- C9 witness: the mutator and normalization facts evaluated on concrete
configs: setting an override on a one-node config, removing the last
override of a node, setting a wedge on an empty wedge map, removing a
wedge, and normalizing a concrete legacy wedge mapping and override
list. -/
theorem C9_no_empty_node_invariant_witness :
    WedgeConfigManager.NoEmptyNode [("A", [[.str "p", PyVal.int 1]])] ∧
    WedgeConfigManager.NoEmptyNode (WedgeConfigManager.WedgeConfig.param_overrides
      (WedgeConfigManager.WedgeConfig.set_param_override
        { output_folder := "o", filename_prefix := "f", url := "u",
          param_overrides := [("A", [[.str "p", PyVal.int 1]])], param_wedges := [] }
        "A" "q" (PyVal.int 2))) ∧
    WedgeConfigManager.NoEmptyNode (WedgeConfigManager.WedgeConfig.param_overrides
      (WedgeConfigManager.WedgeConfig.remove_param_override
        { output_folder := "o", filename_prefix := "f", url := "u",
          param_overrides := [("A", [[.str "p", PyVal.int 1]])], param_wedges := [] }
        "A" "p").1) ∧
    WedgeConfigManager.WedgeConfig.set_param_wedge
        { output_folder := "o", filename_prefix := "f", url := "u",
          param_overrides := [], param_wedges := [] }
        "A" "p" [PyVal.int 1] "explicit" =
      .ok { output_folder := "o", filename_prefix := "f", url := "u",
            param_overrides := [],
            param_wedges := [("A", [[.str "p", .list [PyVal.int 1], .str "explicit"]])] } ∧
    WedgeConfigManager.NoEmptyNode
      [("A", [[.str "p", PyVal.list [PyVal.int 1], .str "explicit"]])] ∧
    WedgeConfigManager.WedgeConfig._normalize_wedges
        (.dict [("p", .list [.str "A", .list [PyVal.int 0], .str "explicit"])]) =
      .ok [("A", [[.str "p", .list [PyVal.int 0], .str "explicit"]])] ∧
    WedgeConfigManager.NoEmptyNode [("A", [[.str "p", PyVal.list [PyVal.int 0], .str "explicit"]])] := by
  refine ⟨by decide, ?_, ?_, rfl, ?_, rfl, ?_⟩
  · exact C9_no_empty_node_invariant.1
      { output_folder := "o", filename_prefix := "f", url := "u",
        param_overrides := [("A", [[.str "p", PyVal.int 1]])], param_wedges := [] }
      "A" "q" (PyVal.int 2) (by decide)
  · exact C9_no_empty_node_invariant.2.1
      { output_folder := "o", filename_prefix := "f", url := "u",
        param_overrides := [("A", [[.str "p", PyVal.int 1]])], param_wedges := [] }
      "A" "p" (by decide)
  · exact C9_no_empty_node_invariant.2.2.1
      { output_folder := "o", filename_prefix := "f", url := "u",
        param_overrides := [], param_wedges := [] }
      { output_folder := "o", filename_prefix := "f", url := "u",
        param_overrides := [],
        param_wedges := [("A", [[.str "p", .list [PyVal.int 1], .str "explicit"]])] }
      "A" "p" [PyVal.int 1] "explicit" rfl (by decide)
  · exact C9_no_empty_node_invariant.2.2.2.2.1
      (.dict [("p", .list [.str "A", .list [PyVal.int 0], .str "explicit"])])
      [("A", [[.str "p", .list [PyVal.int 0], .str "explicit"]])] rfl

/-! ## C5: serialization round-trip -/

lemma checkOverrideEntries_map (es : List (List PyVal)) (h : ∀ e ∈ es, e.length = 2) :
    WedgeConfigManager.checkOverrideEntries (es.map PyVal.list) = .ok es := by
  induction es with
  | nil => rfl
  | cons e rest ih =>
    rw [List.map_cons, WedgeConfigManager.checkOverrideEntries]
    rw [if_pos (h e (List.mem_cons_self _ _))]
    rw [ih (fun x hx => h x (List.mem_cons_of_mem _ hx))]

lemma normOverridesDict_map (ov : List (String × List (List PyVal)))
    (h : ∀ nv ∈ ov, ∀ e ∈ nv.2, e.length = 2) :
    WedgeConfigManager.normOverridesDict
      (ov.map (fun nv => (nv.1, PyVal.list (nv.2.map PyVal.list)))) = .ok ov := by
  induction ov with
  | nil => rfl
  | cons nv rest ih =>
    obtain ⟨n, es⟩ := nv
    rw [List.map_cons, WedgeConfigManager.normOverridesDict]
    rw [checkOverrideEntries_map es (h (n, es) (List.mem_cons_self _ _))]
    rw [ih (fun x hx => h x (List.mem_cons_of_mem _ hx))]

lemma checkWedgeEntries_map (es : List (List PyVal)) (h : ∀ e ∈ es, e.length = 3) :
    WedgeConfigManager.checkWedgeEntries (es.map PyVal.list) = .ok es := by
  induction es with
  | nil => rfl
  | cons e rest ih =>
    rw [List.map_cons, WedgeConfigManager.checkWedgeEntries]
    rw [if_pos (h e (List.mem_cons_self _ _))]
    rw [ih (fun x hx => h x (List.mem_cons_of_mem _ hx))]

lemma dictUpdate_not_mem {α : Type} (k : String) (f : α → α) (dflt : α) :
    ∀ (d : List (String × α)), k ∉ dictKeys d →
      dictUpdate d k f dflt = d ++ [(k, f dflt)] := by
  intro d
  induction d with
  | nil => intro _; rfl
  | cons kv rest ih =>
    intro hk
    rw [dictUpdate, if_neg, List.cons_append, ih]
    · intro hmem
      exact hk (List.mem_cons_of_mem _ hmem)
    · intro heq
      exact hk (heq ▸ List.mem_cons_self _ _)

lemma normWedgesGo_map :
    ∀ (wd : List (String × List (List PyVal))) (acc : List (String × List (List PyVal))),
      (∀ nv ∈ wd, nv.2.isEmpty = false ∧ ∀ e ∈ nv.2, e.length = 3) →
      (dictKeys acc ++ dictKeys wd).Nodup →
      WedgeConfigManager.normWedgesGo
        (wd.map (fun nv => (nv.1, PyVal.list (nv.2.map PyVal.list)))) acc = .ok (acc ++ wd) := by
  intro wd
  induction wd with
  | nil =>
    intro acc _ _
    rw [List.map_nil, WedgeConfigManager.normWedgesGo, List.append_nil]
  | cons nv rest ih =>
    intro acc hshape hnodup
    obtain ⟨n, es⟩ := nv
    obtain ⟨hne, hlen⟩ := hshape (n, es) (List.mem_cons_self _ _)
    cases es with
    | nil => exact absurd hne (by simp)
    | cons e0 es1 =>
      have step : WedgeConfigManager.normWedgesGo
          (List.map (fun nv => (nv.1, PyVal.list (List.map PyVal.list nv.2)))
            ((n, e0 :: es1) :: rest)) acc =
          (match WedgeConfigManager.checkWedgeEntries (List.map PyVal.list (e0 :: es1)) with
          | .error e => .error e
          | .ok converted => WedgeConfigManager.normWedgesGo
              (List.map (fun nv => (nv.1, PyVal.list (List.map PyVal.list nv.2))) rest)
              (dictUpdate acc n (fun _ => converted) [])) := rfl
      rw [step, checkWedgeEntries_map _ hlen]
      show WedgeConfigManager.normWedgesGo
          (List.map (fun nv => (nv.1, PyVal.list (List.map PyVal.list nv.2))) rest)
          (dictUpdate acc n (fun _ => e0 :: es1) []) = Except.ok (acc ++ (n, e0 :: es1) :: rest)
      have hnin : n ∉ dictKeys acc := by
        intro hmem
        have : ¬(dictKeys acc ++ dictKeys ((n, es1) :: rest)).Nodup → True := fun _ => trivial
        have hd := hnodup
        rw [List.nodup_append] at hd
        exact hd.2.2 hmem (by simp [dictKeys])
      rw [dictUpdate_not_mem n _ [] acc hnin]
      have hrec := ih (acc ++ [(n, e0 :: es1)])
        (fun x hx => hshape x (List.mem_cons_of_mem _ hx)) ?_
      · rw [hrec, List.append_assoc, List.singleton_append]
      · have : dictKeys (acc ++ [(n, e0 :: es1)]) ++ dictKeys rest =
            dictKeys acc ++ (n :: dictKeys rest) := by
          simp [dictKeys]
        rw [this]
        have h2 : dictKeys acc ++ dictKeys ((n, e0 :: es1) :: rest) =
            dictKeys acc ++ (n :: dictKeys rest) := by
          simp [dictKeys]
        rw [h2] at hnodup
        exact hnodup

/-- C5.  For every canonical `WedgeConfig` `c`, normalizing the serialized
form of `c` (`from_dict (to_dict c)`) yields `c` back, and the serialized
form is in the canonical shape: `param_overrides` and `param_wedges` are
node-keyed dicts, and every serialized wedge value is detected as the
modern (current) shape by `_normalize_wedges`, never as the legacy one. -/
theorem C5_serialization_roundtrip (c : WedgeConfigManager.WedgeConfig)
    (h : WedgeConfigManager.Canonical c) :
    WedgeConfigManager.WedgeConfig.from_dict (WedgeConfigManager.WedgeConfig.to_dict c) =
      .ok c ∧
    (∃ kvs, WedgeConfigManager.WedgeConfig.to_dict c = PyVal.dict kvs ∧
      (∃ ov, dictGet? kvs "param_overrides" = some (.dict ov)) ∧
      (∃ wdm, dictGet? kvs "param_wedges" = some (.dict wdm) ∧
        ∀ nv ∈ wdm, ∃ vs, nv.2 = PyVal.list vs ∧
          WedgeConfigManager.isModernWedgeValue vs = true)) := by
  obtain ⟨h1, h2, h3, h4, h5, h6, h7⟩ := h
  obtain ⟨o, f, u, ov, wd⟩ := c
  have h1o : o ≠ "" := h1
  have h2f : f ≠ "" := h2
  have h3u : u ≠ "" := h3
  have hov : WedgeConfigManager.WedgeConfig._normalize_overrides
      (.dict (ov.map (fun nv => (nv.1, PyVal.list (nv.2.map PyVal.list))))) = .ok ov := by
    cases ov with
    | nil => rfl
    | cons x rest =>
      have hstep : WedgeConfigManager.WedgeConfig._normalize_overrides
          (.dict ((x :: rest).map (fun nv => (nv.1, PyVal.list (nv.2.map PyVal.list))))) =
          WedgeConfigManager.normOverridesDict
            ((x :: rest).map (fun nv => (nv.1, PyVal.list (nv.2.map PyVal.list)))) := rfl
      rw [hstep, normOverridesDict_map _ h4]
  have hwd : WedgeConfigManager.WedgeConfig._normalize_wedges
      (.dict (wd.map (fun nv => (nv.1, PyVal.list (nv.2.map PyVal.list))))) = .ok wd := by
    cases wd with
    | nil => rfl
    | cons x rest =>
      have hstep : WedgeConfigManager.WedgeConfig._normalize_wedges
          (.dict ((x :: rest).map (fun nv => (nv.1, PyVal.list (nv.2.map PyVal.list))))) =
          WedgeConfigManager.normWedgesGo
            ((x :: rest).map (fun nv => (nv.1, PyVal.list (nv.2.map PyVal.list)))) [] := rfl
      rw [hstep]
      have hn : (dictKeys ([] : List (String × List (List PyVal))) ++
          dictKeys (x :: rest)).Nodup := by
        simpa [dictKeys] using h7
      have := normWedgesGo_map (x :: rest) []
        (fun nv hnv => ⟨(h5 nv hnv).1, fun e he => ((h5 nv hnv).2 e he).1⟩) hn
      simpa using this
  have ht : pyTruthy (PyVal.str o) = true := bne_iff_ne.mpr h1o
  have hvet : WedgeConfigManager.WedgeConfig.vet ⟨o, f, u, ov, wd⟩ = true := by
    simp only [WedgeConfigManager.WedgeConfig.vet, Bool.and_eq_true, bne_iff_ne, ne_eq,
      List.all_eq_true, beq_iff_eq]
    exact ⟨⟨⟨⟨h1o, h2f⟩, h3u⟩, fun nv hnv e he => h4 nv hnv e he⟩,
      fun nv hnv e he => ⟨((h5 nv hnv).2 e he).1, ((h5 nv hnv).2 e he).2⟩⟩
  constructor
  · have hto : WedgeConfigManager.WedgeConfig.to_dict ⟨o, f, u, ov, wd⟩ =
        .dict [("output_folder", .str o),
               ("filename_prefix", .str f),
               ("url", .str u),
               ("param_overrides",
                 .dict (ov.map (fun nv => (nv.1, PyVal.list (nv.2.map PyVal.list))))),
               ("param_wedges",
                 .dict (wd.map (fun nv => (nv.1, PyVal.list (nv.2.map PyVal.list)))))] := rfl
    rw [hto]
    simp [WedgeConfigManager.WedgeConfig.from_dict, dictGet?, pyTruthy, h1o, hov, hwd, hvet]
  · refine ⟨_, rfl, ⟨_, rfl⟩, ⟨_, rfl, ?_⟩⟩
    intro nv hnv
    rcases List.mem_map.mp hnv with ⟨orig, horig, rfl⟩
    refine ⟨orig.2.map PyVal.list, rfl, ?_⟩
    have hne := (h5 orig horig).1
    cases horig2 : orig.2 with
    | nil => exact absurd (horig2 ▸ hne) (by simp)
    | cons e0 es1 => rfl

/-- C5 witness: the round-trip and canonical-shape facts evaluated on a
concrete canonical config with one override node and one wedge node. -/
theorem C5_serialization_roundtrip_witness :
    WedgeConfigManager.Canonical
      { output_folder := "out", filename_prefix := "img", url := "localhost:8188",
        param_overrides := [("N", [[.str "steps", PyVal.int 20]])],
        param_wedges := [("A", [[.str "p", .list [PyVal.int 0, PyVal.int 1], .str "explicit"]])] } ∧
    (WedgeConfigManager.WedgeConfig.from_dict (WedgeConfigManager.WedgeConfig.to_dict
      { output_folder := "out", filename_prefix := "img", url := "localhost:8188",
        param_overrides := [("N", [[.str "steps", PyVal.int 20]])],
        param_wedges := [("A", [[.str "p", .list [PyVal.int 0, PyVal.int 1], .str "explicit"]])] }) =
      .ok { output_folder := "out", filename_prefix := "img", url := "localhost:8188",
            param_overrides := [("N", [[.str "steps", PyVal.int 20]])],
            param_wedges := [("A", [[.str "p", .list [PyVal.int 0, PyVal.int 1], .str "explicit"]])] } ∧
    (∃ kvs, WedgeConfigManager.WedgeConfig.to_dict
      { output_folder := "out", filename_prefix := "img", url := "localhost:8188",
        param_overrides := [("N", [[.str "steps", PyVal.int 20]])],
        param_wedges := [("A", [[.str "p", .list [PyVal.int 0, PyVal.int 1], .str "explicit"]])] } =
        PyVal.dict kvs ∧
      (∃ ov, dictGet? kvs "param_overrides" = some (.dict ov)) ∧
      (∃ wdm, dictGet? kvs "param_wedges" = some (.dict wdm) ∧
        ∀ nv ∈ wdm, ∃ vs, nv.2 = PyVal.list vs ∧
          WedgeConfigManager.isModernWedgeValue vs = true))) :=
  ⟨by decide, C5_serialization_roundtrip _ (by decide)⟩

lemma head?_append_of_head?_eq_some {α : Type} {l1 l2 : List α} {a : α}
    (h : l1.head? = some a) : (l1 ++ l2).head? = some a := by
  cases l1 with
  | nil => simp at h
  | cons x xs => simpa using h

lemma pyProduct_head (ls : List (List PyVal)) (h : ∀ l ∈ ls, l ≠ []) :
    (WedgeSubmitter.pyProduct ls).head? =
      some (ls.map (fun l => l.headD PyVal.none)) := by
  induction ls with
  | nil => rfl
  | cons l ls ih =>
    cases l with
    | nil => exact absurd rfl (h [] (List.mem_cons_self _ _))
    | cons v0 lrest =>
      have hfirst : ((WedgeSubmitter.pyProduct ls).map (fun r => v0 :: r)).head? =
          some (v0 :: ls.map (fun l => l.headD PyVal.none)) := by
        rw [List.head?_map, ih (fun x hx => h x (List.mem_cons_of_mem _ hx))]
        rfl
      show ((WedgeSubmitter.pyProduct ls).map (fun r => v0 :: r) ++
        (v0 :: lrest).tail.flatMap (fun v => (WedgeSubmitter.pyProduct ls).map
          (fun r => v :: r))).head? = _
      rw [head?_append_of_head?_eq_some hfirst]
      rfl

lemma pyProduct_length_ge_two (ls0 : List (List PyVal)) (x y : PyVal) (rest : List PyVal)
    (h : ∀ l ∈ ls0, l ≠ []) :
    2 ≤ (WedgeSubmitter.pyProduct (ls0 ++ [x :: y :: rest])).length := by
  rw [pyProduct_length, List.map_append, List.prod_append]
  have h1 : 0 < (ls0.map List.length).prod := by
    apply List.prod_pos
    intro a ha
    rcases List.mem_map.mp ha with ⟨l, hl, rfl⟩
    exact List.length_pos.mpr (h l hl)
  have h2 : 2 ≤ ([x :: y :: rest].map List.length).prod := by
    simp
  calc 2 = 1 * 2 := (Nat.one_mul 2).symm
  _ ≤ (ls0.map List.length).prod * ([x :: y :: rest].map List.length).prod :=
      Nat.mul_le_mul h1 h2

lemma pyProduct_get1 (ls0 : List (List PyVal)) (x y : PyVal) (rest : List PyVal)
    (h : ∀ l ∈ ls0, l ≠ []) :
    (WedgeSubmitter.pyProduct (ls0 ++ [x :: y :: rest])).get? 1 =
      some (ls0.map (fun l => l.headD PyVal.none) ++ [y]) := by
  induction ls0 with
  | nil =>
    show ((x :: y :: rest).flatMap (fun v => (WedgeSubmitter.pyProduct []).map
      (fun r => v :: r))).get? 1 = some [y]
    rfl
  | cons l ls0T ih =>
    cases l with
    | nil => exact absurd rfl (h [] (List.mem_cons_self _ _))
    | cons v0 lrest =>
      have hlen : 2 ≤ (WedgeSubmitter.pyProduct (ls0T ++ [x :: y :: rest])).length :=
        pyProduct_length_ge_two ls0T x y rest (fun a ha => h a (List.mem_cons_of_mem _ ha))
      have hih := ih (fun a ha => h a (List.mem_cons_of_mem _ ha))
      show (((WedgeSubmitter.pyProduct (ls0T ++ [x :: y :: rest])).map (fun r => v0 :: r) ++
        (v0 :: lrest).tail.flatMap (fun v =>
          (WedgeSubmitter.pyProduct (ls0T ++ [x :: y :: rest])).map (fun r => v :: r))).get? 1) =
        some (v0 :: (ls0T.map (fun l => l.headD PyVal.none) ++ [y]))
      rw [List.get?_append (by simpa using hlen), List.get?_map, hih]
      rfl

/-- C4 (amended).  `iter_combinations` over an empty axis list yields
exactly one assignment, the empty mapping; over a non-empty axis list it
yields exactly (product of the axes' value-list lengths) assignments in
cartesian-product order with the last axis varying fastest: the first
assignment takes index 0 of every axis and — provided the last axis has at
least two values — the second assignment differs from the first only by
advancing the last axis. -/
theorem C4_iter_combinations_order :
    WedgeSubmitter.iter_combinations [] = [[]] ∧
    (∀ axes : List WedgeSubmitter.Axis, axes.isEmpty = false →
      (WedgeSubmitter.iter_combinations axes).length =
        (axes.map (fun a => a.2.length)).prod) ∧
    (∀ axes : List WedgeSubmitter.Axis, (∀ a ∈ axes, a.2.isEmpty = false) →
      (WedgeSubmitter.iter_combinations axes).head? =
        some (WedgeSubmitter.combinationOf (axes.map Prod.fst)
          (axes.map (fun a => a.2.headD PyVal.none)))) ∧
    (∀ (axes0 : List WedgeSubmitter.Axis) (np : String × String) (x y : PyVal)
        (rest : List PyVal),
      (∀ a ∈ axes0, a.2.isEmpty = false) →
      (WedgeSubmitter.iter_combinations (axes0 ++ [(np, x :: y :: rest)])).get? 0 =
        some (WedgeSubmitter.combinationOf ((axes0 ++ [(np, x :: y :: rest)]).map Prod.fst)
          (axes0.map (fun a => a.2.headD PyVal.none) ++ [x])) ∧
      (WedgeSubmitter.iter_combinations (axes0 ++ [(np, x :: y :: rest)])).get? 1 =
        some (WedgeSubmitter.combinationOf ((axes0 ++ [(np, x :: y :: rest)]).map Prod.fst)
          (axes0.map (fun a => a.2.headD PyVal.none) ++ [y]))) := by
  have hconv : ∀ (l : List PyVal), l.isEmpty = false → l ≠ [] := by
    intro l hl hnil
    rw [hnil] at hl
    simp at hl
  refine ⟨rfl, fun axes hne => ?_, fun axes hne => ?_, fun axes0 np x y rest h0 => ?_⟩
  · rw [iter_combinations_length, WedgeSubmitter.total_runs, if_neg (by simp [hne])]
  · cases axes with
    | nil => rfl
    | cons a axes1 =>
      show ((WedgeSubmitter.pyProduct ((a :: axes1).map Prod.snd)).map
        (WedgeSubmitter.combinationOf ((a :: axes1).map Prod.fst))).head? = _
      rw [List.head?_map, pyProduct_head]
      · rw [List.map_map]
        rfl
      · intro l hl
        rcases List.mem_map.mp hl with ⟨ax, hax, rfl⟩
        exact hconv _ (hne ax hax)
  · have hne2 : ∀ l ∈ axes0.map Prod.snd, l ≠ [] := by
      intro l hl
      rcases List.mem_map.mp hl with ⟨ax, hax, rfl⟩
      exact hconv _ (h0 ax hax)
    have hsnd : (axes0 ++ [(np, x :: y :: rest)]).map Prod.snd =
        axes0.map Prod.snd ++ [x :: y :: rest] := by
      simp
    have hiter : WedgeSubmitter.iter_combinations (axes0 ++ [(np, x :: y :: rest)]) =
        (WedgeSubmitter.pyProduct (axes0.map Prod.snd ++ [x :: y :: rest])).map
          (WedgeSubmitter.combinationOf ((axes0 ++ [(np, x :: y :: rest)]).map Prod.fst)) := by
      rw [WedgeSubmitter.iter_combinations, if_neg (by simp), hsnd]
    constructor
    · rw [hiter, List.get?_map]
      have hh : (WedgeSubmitter.pyProduct (axes0.map Prod.snd ++ [x :: y :: rest])).get? 0 =
          some (axes0.map (fun a => a.2.headD PyVal.none) ++ [x]) := by
        have := pyProduct_head (axes0.map Prod.snd ++ [x :: y :: rest]) ?_
        · rw [List.get?_zero, this]
          congr 1
          simp [List.map_map, Function.comp_def]
        · intro l hl
          rcases List.mem_append.mp hl with h | h
          · exact hne2 l h
          · rcases List.mem_singleton.mp h with rfl
            simp
      rw [hh]
      rfl
    · rw [hiter, List.get?_map]
      have hg := pyProduct_get1 (axes0.map Prod.snd) x y rest hne2
      have hg2 : (WedgeSubmitter.pyProduct (axes0.map Prod.snd ++ [x :: y :: rest])).get? 1 =
          some (axes0.map (fun a => a.2.headD PyVal.none) ++ [y]) := by
        rw [hg]
        congr 2
        simp [List.map_map, Function.comp_def]
      rw [hg2]
      rfl

/-- C4 witness: the enumeration facts evaluated on the concrete axes of
sizes 3 and 4 and on a concrete last-axis-of-size-4 decomposition. -/
theorem C4_iter_combinations_order_witness :
    WedgeSubmitter.axesTotal12.isEmpty = false ∧
    (WedgeSubmitter.iter_combinations WedgeSubmitter.axesTotal12).length =
      (WedgeSubmitter.axesTotal12.map (fun a => a.2.length)).prod ∧
    (∀ a ∈ WedgeSubmitter.axesTotal12, a.2.isEmpty = false) ∧
    (WedgeSubmitter.iter_combinations WedgeSubmitter.axesTotal12).head? =
      some (WedgeSubmitter.combinationOf (WedgeSubmitter.axesTotal12.map Prod.fst)
        (WedgeSubmitter.axesTotal12.map (fun a => a.2.headD PyVal.none))) ∧
    (WedgeSubmitter.iter_combinations
        ([(("A", "p"), [PyVal.int 0, PyVal.int 1, PyVal.int 2])] ++
          [(("B", "q"), PyVal.int 0 :: PyVal.int 1 :: [PyVal.int 2, PyVal.int 3])])).get? 1 =
      some (WedgeSubmitter.combinationOf
        (([(("A", "p"), [PyVal.int 0, PyVal.int 1, PyVal.int 2])] ++
          [(("B", "q"), PyVal.int 0 :: PyVal.int 1 :: [PyVal.int 2, PyVal.int 3])]).map Prod.fst)
        ([(("A", "p"), [PyVal.int 0, PyVal.int 1, PyVal.int 2])].map
          (fun a => a.2.headD PyVal.none) ++ [PyVal.int 1])) := by
  refine ⟨by decide, C4_iter_combinations_order.2.1 WedgeSubmitter.axesTotal12 (by decide),
    by decide, C4_iter_combinations_order.2.2.1 WedgeSubmitter.axesTotal12 (by decide),
    (C4_iter_combinations_order.2.2.2
      [(("A", "p"), [PyVal.int 0, PyVal.int 1, PyVal.int 2])]
      ("B", "q") (PyVal.int 0) (PyVal.int 1) [PyVal.int 2, PyVal.int 3] (by decide)).2⟩

/-! ## C2: minmax expansion -/

lemma roundHalfEven_ge_floor (x : Rat) : ⌊x⌋ ≤ roundHalfEven x := by
  rw [roundHalfEven]
  split_ifs <;> omega

lemma roundHalfEven_le_floor_add_one (x : Rat) : roundHalfEven x ≤ ⌊x⌋ + 1 := by
  rw [roundHalfEven]
  split_ifs <;> omega

lemma roundHalfEven_mono {x y : Rat} (h : x ≤ y) : roundHalfEven x ≤ roundHalfEven y := by
  have hf : ⌊x⌋ ≤ ⌊y⌋ := Int.floor_le_floor h
  rcases lt_or_eq_of_le hf with hlt | heq
  · calc roundHalfEven x ≤ ⌊x⌋ + 1 := roundHalfEven_le_floor_add_one x
    _ ≤ ⌊y⌋ := by omega
    _ ≤ roundHalfEven y := roundHalfEven_ge_floor y
  · rw [roundHalfEven, roundHalfEven, ← heq]
    have hfr : x - (⌊x⌋ : Rat) ≤ y - (⌊x⌋ : Rat) := by linarith
    split_ifs <;> first | omega | linarith

lemma abs_sub_roundHalfEven_le_half (x : Rat) : |x - (roundHalfEven x : Rat)| ≤ 1/2 := by
  have h1 : (⌊x⌋ : Rat) ≤ x := Int.floor_le x
  have h2 : x < (⌊x⌋ : Rat) + 1 := Int.lt_floor_add_one x
  rw [roundHalfEven, abs_le]
  split_ifs with c1 c2 c3
  · constructor <;> linarith
  · push_cast
    constructor <;> linarith
  · constructor <;> linarith
  · push_cast
    constructor <;> linarith

lemma roundHalfEven_eq_of_abs_lt_half {x : Rat} {n : Int} (h : |x - (n : Rat)| < 1/2) :
    roundHalfEven x = n := by
  rw [abs_lt] at h
  rcases le_or_lt (n : Rat) x with hc | hc
  · have hfl : ⌊x⌋ = n := by
      rw [Int.floor_eq_iff]
      constructor
      · exact_mod_cast hc
      · push_cast
        linarith [h.2]
    rw [roundHalfEven, hfl, if_pos (by linarith [h.2])]
  · have hfl : ⌊x⌋ = n - 1 := by
      rw [Int.floor_eq_iff]
      constructor
      · push_cast
        linarith [h.1]
      · push_cast
        linarith
    rw [roundHalfEven, hfl]
    rw [if_neg (by push_cast; linarith [h.1]), if_pos (by push_cast; linarith [h.1])]
    omega

lemma pyRound_mono {x y : Rat} (h : x ≤ y) : pyRound x 10 ≤ pyRound y 10 := by
  rw [pyRound, pyRound]
  have h1 : x * 10 ^ 10 ≤ y * 10 ^ 10 := by
    apply mul_le_mul_of_nonneg_right h
    positivity
  have h2 : (roundHalfEven (x * 10 ^ 10) : Rat) ≤ (roundHalfEven (y * 10 ^ 10) : Rat) := by
    exact_mod_cast roundHalfEven_mono h1
  apply div_le_div_of_nonneg_right h2
  positivity

lemma coerce_float_val (q : Rat) :
    WedgeSubmitter.pyRatVal (WedgeSubmitter._coerce_numeric (.float q)) =
      if mathIsClose (pyRound q 10) ((roundHalfEven (pyRound q 10) : Int) : Rat) then
        ((roundHalfEven (pyRound q 10) : Int) : Rat)
      else pyRound q 10 := by
  rw [WedgeSubmitter._coerce_numeric]
  split_ifs with h
  · rfl
  · rfl

lemma coerce_float_mono {q1 q2 : Rat} (h : q1 ≤ q2) :
    WedgeSubmitter.pyRatVal (WedgeSubmitter._coerce_numeric (.float q1)) ≤
      WedgeSubmitter.pyRatVal (WedgeSubmitter._coerce_numeric (.float q2)) := by
  rw [coerce_float_val, coerce_float_val]
  have hr : pyRound q1 10 ≤ pyRound q2 10 := pyRound_mono h
  set r1 := pyRound q1 10 with hr1
  set r2 := pyRound q2 10 with hr2
  set n1 := roundHalfEven r1 with hn1
  set n2 := roundHalfEven r2 with hn2
  have hn : n1 ≤ n2 := roundHalfEven_mono hr
  rcases eq_or_lt_of_le hr with heq | hlt
  · rw [heq]
    rw [show n1 = n2 from by rw [hn1, hn2, heq]]
  · split_ifs with c1 c2 c2
    · exact_mod_cast hn
    · -- r1 is close to n1, r2 is not close to n2: show (n1 : Rat) ≤ r2
      rcases le_or_lt (n1 : Rat) r1 with hc | hc
      · linarith
      · by_contra hlt2
        push_neg at hlt2
        have habs1 : |r1 - (n1 : Rat)| ≤ 1/2 := abs_sub_roundHalfEven_le_half r1
        have hd1 : (n1 : Rat) - r1 ≤ 1/2 := by
          rw [abs_le] at habs1
          linarith [habs1.1]
        have habs2 : |r2 - (n1 : Rat)| < 1/2 := by
          rw [abs_lt]
          constructor <;> linarith
        have hn2eq : n2 = n1 := by
          rw [hn2]
          exact roundHalfEven_eq_of_abs_lt_half habs2
        rw [hn2eq] at c2
        rw [mathIsClose_eq_true_iff] at c1
        have c2' : ¬(|r2 - (n1 : Rat)| ≤ (1 / 10 ^ 9) * max |r2| |(n1 : Rat)|) := by
          intro hc2
          exact c2 ((mathIsClose_eq_true_iff _ _).mpr hc2)
        rcases le_or_lt 1 n1 with hs | hs
        · -- n1 ≥ 1: everything positive, max is n1 on both sides
          have hs1 : (1 : Rat) ≤ (n1 : Rat) := by exact_mod_cast hs
          have habr1 : |r1| = r1 := abs_of_pos (by linarith)
          have habr2 : |r2| = r2 := abs_of_pos (by linarith)
          have habn : |(n1 : Rat)| = (n1 : Rat) := abs_of_pos (by linarith)
          have hm1 : max |r1| |(n1 : Rat)| = (n1 : Rat) := by
            rw [habr1, habn]
            exact max_eq_right (by linarith)
          have hm2 : max |r2| |(n1 : Rat)| = (n1 : Rat) := by
            rw [habr2, habn]
            exact max_eq_right (by linarith)
          rw [hm1, abs_sub_comm, abs_of_pos (by linarith)] at c1
          apply c2'
          rw [hm2, abs_sub_comm, abs_of_pos (by linarith)]
          linarith
        · rcases le_or_lt n1 (-1) with hs2 | hs2
          · -- n1 ≤ -1: everything negative, max is -r on both sides
            have hs1 : (n1 : Rat) ≤ -1 := by exact_mod_cast hs2
            have habr1 : |r1| = -r1 := abs_of_neg (by linarith)
            have habr2 : |r2| = -r2 := abs_of_neg (by linarith)
            have habn : |(n1 : Rat)| = -(n1 : Rat) := abs_of_neg (by linarith)
            have hm1 : max |r1| |(n1 : Rat)| = -r1 := by
              rw [habr1, habn]
              exact max_eq_left (by linarith)
            have hm2 : max |r2| |(n1 : Rat)| = -r2 := by
              rw [habr2, habn]
              exact max_eq_left (by linarith)
            rw [hm1, abs_sub_comm, abs_of_pos (by linarith)] at c1
            apply c2'
            rw [hm2, abs_sub_comm, abs_of_pos (by linarith)]
            linarith
          · -- n1 = 0: closeness of r1 to 0 forces r1 = 0, contradicting r1 < n1
            have hz : n1 = 0 := by omega
            rw [hz] at c1 hc
            have hc0 : r1 < 0 := by exact_mod_cast hc
            have e1 : ((0 : Int) : Rat) = 0 := by norm_num
            rw [e1, sub_zero, abs_zero, max_eq_left (abs_nonneg r1), abs_of_neg hc0] at c1
            linarith
    · -- r1 not close, r2 close: show r1 ≤ (n2 : Rat)
      rcases le_or_lt r2 (n2 : Rat) with hc | hc
      · linarith
      · by_contra hlt2
        push_neg at hlt2
        have habs2 : |r2 - (n2 : Rat)| ≤ 1/2 := abs_sub_roundHalfEven_le_half r2
        have hd2 : r2 - (n2 : Rat) ≤ 1/2 := by
          rw [abs_le] at habs2
          linarith [habs2.2]
        have habs1 : |r1 - (n2 : Rat)| < 1/2 := by
          rw [abs_lt]
          constructor <;> linarith
        have hn1eq : n1 = n2 := by
          rw [hn1]
          exact roundHalfEven_eq_of_abs_lt_half habs1
        rw [hn1eq] at c1
        rw [mathIsClose_eq_true_iff] at c2
        have c1' : ¬(|r1 - (n2 : Rat)| ≤ (1 / 10 ^ 9) * max |r1| |(n2 : Rat)|) := by
          intro hcx
          exact c1 ((mathIsClose_eq_true_iff _ _).mpr hcx)
        rcases le_or_lt 1 n2 with hs | hs
        · -- n2 ≥ 1: everything positive, max is r on both sides
          have hs1 : (1 : Rat) ≤ (n2 : Rat) := by exact_mod_cast hs
          have habr1 : |r1| = r1 := abs_of_pos (by linarith)
          have habr2 : |r2| = r2 := abs_of_pos (by linarith)
          have habn : |(n2 : Rat)| = (n2 : Rat) := abs_of_pos (by linarith)
          have hm1 : max |r1| |(n2 : Rat)| = r1 := by
            rw [habr1, habn]
            exact max_eq_left (by linarith)
          have hm2 : max |r2| |(n2 : Rat)| = r2 := by
            rw [habr2, habn]
            exact max_eq_left (by linarith)
          rw [hm2, abs_of_pos (by linarith)] at c2
          apply c1'
          rw [hm1, abs_of_pos (by linarith)]
          nlinarith
        · rcases le_or_lt n2 (-1) with hs2 | hs2
          · -- n2 ≤ -1: everything negative, max is -n2 on both sides
            have hs1 : (n2 : Rat) ≤ -1 := by exact_mod_cast hs2
            have habr1 : |r1| = -r1 := abs_of_neg (by linarith)
            have habr2 : |r2| = -r2 := abs_of_neg (by linarith)
            have habn : |(n2 : Rat)| = -(n2 : Rat) := abs_of_neg (by linarith)
            have hm1 : max |r1| |(n2 : Rat)| = -(n2 : Rat) := by
              rw [habr1, habn]
              exact max_eq_right (by linarith)
            have hm2 : max |r2| |(n2 : Rat)| = -(n2 : Rat) := by
              rw [habr2, habn]
              exact max_eq_right (by linarith)
            rw [hm2, abs_of_pos (by linarith)] at c2
            apply c1'
            rw [hm1, abs_of_pos (by linarith)]
            linarith
          · -- n2 = 0: closeness of r2 to 0 forces r2 = 0, contradicting n2 < r2
            have hz : n2 = 0 := by omega
            rw [hz] at c2 hc
            have hc0 : (0 : Rat) < r2 := by exact_mod_cast hc
            have e1 : ((0 : Int) : Rat) = 0 := by norm_num
            rw [e1, sub_zero, abs_zero, max_eq_left (abs_nonneg r2), abs_of_pos hc0] at c2
            linarith
    · exact le_of_lt hlt

lemma expandLoop_ok_characterization (stop step tol : Rat) (dir : Int) :
    ∀ (fuel : Nat) (current : Rat) (l : List PyVal),
      WedgeSubmitter.expandLoop stop step tol dir fuel current = .ok l →
      ∃ k, k ≤ fuel ∧
        l = (List.range k).map (fun i : Nat =>
          WedgeSubmitter._coerce_numeric (.float (current + (i : Rat) * step))) ∧
        (∀ i, i < k → ¬ WedgeSubmitter.breakCond stop tol dir (current + (i : Rat) * step)) ∧
        WedgeSubmitter.breakCond stop tol dir (current + (k : Rat) * step) := by
  intro fuel
  induction fuel with
  | zero =>
    intro current l h
    rw [WedgeSubmitter.expandLoop] at h
    by_cases hb : (0 < dir ∧ stop + tol < current) ∨ (dir < 0 ∧ current < stop - tol)
    · rw [if_pos hb] at h
      cases h
      refine ⟨0, le_refl 0, rfl, fun i hi => absurd hi (by omega), ?_⟩
      have e0 : current + ((0 : Nat) : Rat) * step = current := by push_cast; ring
      rw [e0]
      exact hb
    · rw [if_neg hb] at h
      exact Except.noConfusion h
  | succ fuel ih =>
    intro current l h
    rw [WedgeSubmitter.expandLoop] at h
    by_cases hb : (0 < dir ∧ stop + tol < current) ∨ (dir < 0 ∧ current < stop - tol)
    · rw [if_pos hb] at h
      cases h
      refine ⟨0, by omega, rfl, fun i hi => absurd hi (by omega), ?_⟩
      have e0 : current + ((0 : Nat) : Rat) * step = current := by push_cast; ring
      rw [e0]
      exact hb
    · rw [if_neg hb] at h
      have h2 : (match WedgeSubmitter.expandLoop stop step tol dir fuel (current + step) with
          | .error e => .error e
          | .ok rest => .ok (WedgeSubmitter._coerce_numeric (.float current) :: rest)) =
          Except.ok l := h
      cases hrec : WedgeSubmitter.expandLoop stop step tol dir fuel (current + step) with
      | error e =>
        rw [hrec] at h2
        exact Except.noConfusion h2
      | ok rest =>
        rw [hrec] at h2
        cases h2
        obtain ⟨k, hk, hl, hcond, hbrk⟩ := ih (current + step) rest hrec
        refine ⟨k + 1, by omega, ?_, ?_, ?_⟩
        · rw [hl, List.range_succ_eq_map, List.map_cons, List.map_map]
          have e0 : current + ((0 : Nat) : Rat) * step = current := by push_cast; ring
          rw [e0]
          refine congrArg₂ List.cons rfl (List.map_congr_left fun i _ => ?_)
          have e1 : current + step + (i : Rat) * step =
              current + ((Nat.succ i : Nat) : Rat) * step := by push_cast; ring
          simp only [Function.comp_def, e1]
        · intro i hi
          cases i with
          | zero =>
            have e0 : current + ((0 : Nat) : Rat) * step = current := by push_cast; ring
            rw [e0]
            exact hb
          | succ j =>
            have e1 : current + ((Nat.succ j : Nat) : Rat) * step =
                current + step + (j : Rat) * step := by push_cast; ring
            rw [e1]
            exact hcond j (by omega)
        · have e1 : current + ((k + 1 : Nat) : Rat) * step =
              current + step + (k : Rat) * step := by push_cast; ring
          rw [e1]
          exact hbrk

lemma breakCond_dir_pos (stop tol c : Rat) :
    WedgeSubmitter.breakCond stop tol 1 c ↔ stop + tol < c := by
  rw [WedgeSubmitter.breakCond]
  constructor
  · rintro (⟨_, h⟩ | ⟨h, _⟩)
    · exact h
    · exact absurd h (by norm_num)
  · intro h
    exact Or.inl ⟨by norm_num, h⟩

lemma breakCond_dir_neg (stop tol c : Rat) :
    WedgeSubmitter.breakCond stop tol (-1) c ↔ c < stop - tol := by
  rw [WedgeSubmitter.breakCond]
  constructor
  · rintro (⟨h, _⟩ | ⟨_, h⟩)
    · exact absurd h (by norm_num)
    · exact h
  · intro h
    exact Or.inr ⟨by norm_num, h⟩

/-- C2 (amended).  Whenever `expand_wedge_values` on a numeric
`[start, stop, step]` minmax triple returns successfully, the result is
non-empty, its first element is the coercion of `start`, and it is the
pointwise `_coerce_numeric` image of the arithmetic progression
`start, start+step, …, start+(k-1)·step` for some `k ≥ 1`, weakly monotonic
in the direction of `step`'s sign; every raw term lies within the retention
bound `stop ± |step|·1e-9` and the next raw term `start + k·step` lies
beyond it — so the last element is within `|step|` of the bound, but not
necessarily within the tolerance `|step|·1e-9` of `stop`. -/
theorem C2_expand_minmax_characterization (start stop step : Rat) (l : List PyVal)
    (h : WedgeSubmitter.expand_wedge_values [.float start, .float stop, .float step]
      "minmax" = .ok l) :
    l ≠ [] ∧
    l.head? = some (WedgeSubmitter._coerce_numeric (.float start)) ∧
    (0 < step →
      List.Chain' (fun a b => WedgeSubmitter.pyRatVal a ≤ WedgeSubmitter.pyRatVal b) l ∧
      ∃ k, 1 ≤ k ∧
        l = (List.range k).map (fun i : Nat =>
          WedgeSubmitter._coerce_numeric (.float (start + (i : Rat) * step))) ∧
        (∀ i, i < k → start + (i : Rat) * step ≤ stop + |step| * (1 / 10 ^ 9)) ∧
        stop + |step| * (1 / 10 ^ 9) < start + (k : Rat) * step) ∧
    (step < 0 →
      List.Chain' (fun a b => WedgeSubmitter.pyRatVal b ≤ WedgeSubmitter.pyRatVal a) l ∧
      ∃ k, 1 ≤ k ∧
        l = (List.range k).map (fun i : Nat =>
          WedgeSubmitter._coerce_numeric (.float (start + (i : Rat) * step))) ∧
        (∀ i, i < k → stop - |step| * (1 / 10 ^ 9) ≤ start + (i : Rat) * step) ∧
        start + (k : Rat) * step < stop - |step| * (1 / 10 ^ 9)) := by
  by_cases hz : step = 0
  · subst hz
    exact absurd h (by intro hcon; exact Except.noConfusion hcon)
  · have hstep : WedgeSubmitter.expand_wedge_values
        [.float start, .float stop, .float step] "minmax" =
        (if isPyZero (.float step) then
          Except.error "Minmax wedge step must be non-zero."
        else
          match WedgeSubmitter.expandLoop stop step (|step| * (1 / 10 ^ 9))
              (if 0 < step then 1 else -1) 100000 start with
          | .error e => .error e
          | .ok result =>
            if result.isEmpty then
              .error "No values produced when expanding minmax wedge."
            else .ok result) := rfl
    rw [hstep] at h
    have hb : isPyZero (.float step) = false := by
      simp [isPyZero, hz]
    rw [hb] at h
    rw [if_neg (by simp)] at h
    cases hloop : WedgeSubmitter.expandLoop stop step (|step| * (1 / 10 ^ 9))
        (if 0 < step then 1 else -1) 100000 start with
    | error e =>
      rw [hloop] at h
      exact Except.noConfusion h
    | ok result =>
      rw [hloop] at h
      have h2 : (if result.isEmpty = true then
          (Except.error "No values produced when expanding minmax wedge." :
            Except String (List PyVal))
        else Except.ok result) = Except.ok l := h
      by_cases hres : result.isEmpty = true
      · rw [if_pos hres] at h2
        exact Except.noConfusion h2
      · rw [if_neg hres] at h2
        cases h2
        obtain ⟨k, hkfuel, hl, hcond, hbrk⟩ :=
          expandLoop_ok_characterization stop step (|step| * (1 / 10 ^ 9))
            (if 0 < step then 1 else -1) 100000 start l hloop
        have hk1 : 1 ≤ k := by
          rcases Nat.eq_zero_or_pos k with rfl | hpos
          · rw [hl] at hres
            simp at hres
          · exact hpos
        have hhead : l.head? =
            some (WedgeSubmitter._coerce_numeric (.float start)) := by
          rcases k with _ | k0
          · omega
          · rw [hl, List.range_succ_eq_map, List.map_cons, List.head?_cons]
            have e0 : start + ((0 : Nat) : Rat) * step = start := by push_cast; ring
            rw [e0]
        have hne : l ≠ [] := by
          intro hcon
          rw [hcon] at hres
          simp at hres
        have hchain : ∀ (R : PyVal → PyVal → Prop),
            (∀ i : Nat, R (WedgeSubmitter._coerce_numeric (.float (start + (i : Rat) * step)))
              (WedgeSubmitter._coerce_numeric (.float (start + ((i + 1 : Nat) : Rat) * step)))) →
            List.Chain' R l := by
          intro R hR
          rw [hl]
          rw [List.chain'_iff_get]
          intro i hi
          simp only [List.length_map, List.length_range] at hi
          rw [List.get_map, List.get_map]
          have hg1 : (List.range k).get ⟨i, by simpa using by omega⟩ = i := List.get_range _ _
          have hg2 : (List.range k).get ⟨i + 1, by simpa using by omega⟩ = i + 1 :=
            List.get_range _ _
          rw [hg1, hg2]
          exact hR i
        refine ⟨hne, hhead, fun hpos => ?_, fun hneg => ?_⟩
        · have hdir : (if 0 < step then (1 : Int) else -1) = 1 := if_pos hpos
          rw [hdir] at hcond hbrk
          refine ⟨hchain _ (fun i => coerce_float_mono (by push_cast; nlinarith)), k, hk1, hl,
            fun i hi => ?_, (breakCond_dir_pos _ _ _).mp hbrk⟩
          have := hcond i hi
          rw [breakCond_dir_pos] at this
          linarith [this]
        · have hdir : (if 0 < step then (1 : Int) else -1) = -1 :=
            if_neg (by linarith)
          rw [hdir] at hcond hbrk
          refine ⟨hchain _ (fun i => coerce_float_mono (by push_cast; nlinarith)), k, hk1, hl,
            fun i hi => ?_, (breakCond_dir_neg _ _ _).mp hbrk⟩
          have := hcond i hi
          rw [breakCond_dir_neg] at this
          linarith [this]

/-- C2 counterexample.  On the triple `[0, 0.5, 1]` (non-zero step) the
expansion succeeds and returns `[0]`, whose last (and only) element is at
distance `0.5` from `stop = 0.5` — far beyond the tolerance
`|step| * 1e-9` — so the claimed last-element property fails. -/
theorem C2_counterexample :
    WedgeSubmitter.expand_wedge_values [.float 0, .float (1/2), .float 1] "minmax" =
      .ok [PyVal.int 0] ∧
    List.getLast? [PyVal.int 0] = some (PyVal.int 0) ∧
    ¬(|WedgeSubmitter.pyRatVal (PyVal.int 0) - 1/2| ≤ |(1 : Rat)| * (1 / 10 ^ 9)) := by
  refine ⟨rfl, rfl, ?_⟩
  simp only [WedgeSubmitter.pyRatVal]
  have e1 : |((0 : Int) : Rat) - 1/2| = 1/2 := by
    rw [show ((0 : Int) : Rat) - 1/2 = -(1/2) by norm_num, abs_neg,
      abs_of_pos (by norm_num : (0 : Rat) < 1/2)]
  rw [e1, abs_one]
  norm_num

/-- C2 witness: the characterization evaluated on the concrete triple
`[0, 2, 1]`, which expands to `[0, 1, 2]`. -/
theorem C2_expand_minmax_characterization_witness :
    WedgeSubmitter.expand_wedge_values [.float 0, .float 2, .float 1] "minmax" =
      .ok [PyVal.int 0, PyVal.int 1, PyVal.int 2] ∧
    ([PyVal.int 0, PyVal.int 1, PyVal.int 2] : List PyVal) ≠ [] ∧
    ([PyVal.int 0, PyVal.int 1, PyVal.int 2] : List PyVal).head? =
      some (WedgeSubmitter._coerce_numeric (.float 0)) ∧
    ((0 : Rat) < 1 →
      List.Chain' (fun a b => WedgeSubmitter.pyRatVal a ≤ WedgeSubmitter.pyRatVal b)
        [PyVal.int 0, PyVal.int 1, PyVal.int 2] ∧
      ∃ k, 1 ≤ k ∧
        ([PyVal.int 0, PyVal.int 1, PyVal.int 2] : List PyVal) =
          (List.range k).map (fun i : Nat =>
            WedgeSubmitter._coerce_numeric (.float ((0 : Rat) + (i : Rat) * 1))) ∧
        (∀ i, i < k → (0 : Rat) + (i : Rat) * 1 ≤ 2 + |(1 : Rat)| * (1 / 10 ^ 9)) ∧
        (2 : Rat) + |(1 : Rat)| * (1 / 10 ^ 9) < 0 + (k : Rat) * 1) ∧
    ((1 : Rat) < 0 →
      List.Chain' (fun a b => WedgeSubmitter.pyRatVal b ≤ WedgeSubmitter.pyRatVal a)
        [PyVal.int 0, PyVal.int 1, PyVal.int 2] ∧
      ∃ k, 1 ≤ k ∧
        ([PyVal.int 0, PyVal.int 1, PyVal.int 2] : List PyVal) =
          (List.range k).map (fun i : Nat =>
            WedgeSubmitter._coerce_numeric (.float ((0 : Rat) + (i : Rat) * 1))) ∧
        (∀ i, i < k → (2 : Rat) - |(1 : Rat)| * (1 / 10 ^ 9) ≤ 0 + (i : Rat) * 1) ∧
        (0 : Rat) + (k : Rat) * 1 < 2 - |(1 : Rat)| * (1 / 10 ^ 9)) := by
  have h := C2_expand_minmax_characterization 0 2 1
    [PyVal.int 0, PyVal.int 1, PyVal.int 2] rfl
  exact ⟨rfl, h.1, h.2.1, h.2.2.1, h.2.2.2⟩
